import Mathlib

/-!
Verification of the go-oryx-lib RTMP stack specification against the code.

The development shallowly embeds three subsystems of the repository:

* the AMF0 value codec (`amf0/amf0.go`, current variant of the file);
* the RTMP chunk/message/packet layer (`rtmp/rtmp.go`);
* the FLV tag muxer and demuxer (`flv/flv.go`).

Bytes are modelled as `Nat` values below 256 in `List Nat` streams.  Go
machine integers are `Nat` with explicit `% 2^w` at every point where the
Go code truncates (casts to `byte`, `uint16`, shifts of a `uint8`, ...).
Go's bitwise `|` over disjoint byte fields is written as `+` with the
operand shapes kept from the source.  Fallible Go functions return a
`GoRes` value; a Go runtime panic (nil dereference, out-of-range index)
is the `panicked` outcome.  Loops whose Go termination argument is the
shrinking of the input slice are written with an explicit fuel argument
that strictly decreases on every nested call; every entry point passes
`input.length + 1` or more, which dominates the number of iterations
because every iteration of every loop consumes at least one input byte.
-/

/-- Outcome of a fallible Go operation: success, an error return, or a
runtime panic. -/
inductive GoRes (ε : Type) (α : Type) where
  | ok (a : α)
  | err (e : ε)
  | panicked
deriving DecidableEq, Repr

/-- Error kinds returned by the AMF0 codec (`errDataNotEnough`, the
`Marker ... is illegal` / `... is not supported` errors of `Discovery`,
and the per-type `... marker ... is illegal` errors). -/
inductive AErr where
  | dataNotEnough
  | markerIllegal
  | notSupported
  | badTypeMarker
deriving DecidableEq, Repr

/-- Big-endian byte expansion: the `n` low-order bytes of `x`, most
significant first, as Go's `binary.BigEndian.PutUintN` produces. -/
def beBytes : Nat → Nat → List Nat
  | 0, _ => []
  | n + 1, x => beBytes n (x / 256) ++ [x % 256]

/-- Big-endian byte recomposition, as Go's `binary.BigEndian.UintN`
computes over a byte slice. -/
def beVal (l : List Nat) : Nat :=
  l.foldl (fun a b => 256 * a + b) 0

theorem beBytes_length (n x : Nat) : (beBytes n x).length = n := by
  induction n generalizing x with
  | zero => rfl
  | succ n ih => simp [beBytes, ih]

theorem beVal_append_one (l : List Nat) (b : Nat) :
    beVal (l ++ [b]) = 256 * beVal l + b := by
  simp [beVal, List.foldl_append]

theorem beVal_beBytes (n x : Nat) : beVal (beBytes n x) = x % 256 ^ n := by
  induction n generalizing x with
  | zero => simp [beBytes, beVal, Nat.mod_one]
  | succ n ih =>
      rw [beBytes, beVal_append_one, ih]
      have h256 : (256 : Nat) ^ (n + 1) = 256 * 256 ^ n := by ring
      rw [h256, Nat.mod_mul]
      omega

theorem beBytes_lt (n x : Nat) : ∀ b ∈ beBytes n x, b < 256 := by
  induction n generalizing x with
  | zero => simp [beBytes]
  | succ n ih =>
      intro b hb
      rw [beBytes] at hb
      rcases List.mem_append.mp hb with h | h
      · exact ih _ b h
      · simp at h; omega

theorem take_append_length {α : Type} (l r : List α) (n : Nat)
    (h : l.length = n) : (l ++ r).take n = l := by
  subst h; exact List.take_left l r

theorem drop_append_length {α : Type} (l r : List α) (n : Nat)
    (h : l.length = n) : (l ++ r).drop n = r := by
  subst h; exact List.drop_left l r

/-! ## AMF0 value model

The tagged variant of `amf0.go`: `Number` carries the 64 IEEE 754 bits
exactly as `math.Float64bits` produces them (marshal writes the bits,
unmarshal reads them back, so the bit pattern is the faithful state),
`Object`, `EcmaArray` and `StrictArray` carry the ordered property list
of `objectBase`, and `aobjEnd` is the non-user-constructible `objectEOF`
sentinel. -/

mutual
inductive AValue where
  | anum (bits : Nat)
  | abool (b : Bool)
  | astr (s : List Nat)
  | aobj (ps : AProps)
  | aecma (count : Nat) (ps : AProps)
  | astrict (count : Nat) (ps : AProps)
  | anull
  | aundef
  | aobjEnd
deriving DecidableEq, Repr

inductive AProps where
  | nil
  | cons (k : List Nat) (v : AValue) (ps : AProps)
deriving DecidableEq, Repr
end

/-- Marker byte of each variant (`amf0Marker` methods). -/
def markerOf : AValue → Nat
  | .anum _ => 0
  | .abool _ => 1
  | .astr _ => 2
  | .aobj _ => 3
  | .aecma _ _ => 8
  | .astrict _ _ => 10
  | .anull => 5
  | .aundef => 6
  | .aobjEnd => 9

/-- Size of a wire UTF8 string (`amf0UTF8.Size`): 2-byte length prefix
plus the bytes. -/
def utf8Size (s : List Nat) : Nat := 2 + s.length

/-- Wire form of a UTF8 string (`amf0UTF8.MarshalBinary`): the length is
truncated to `uint16` for the prefix, but all bytes are copied. -/
def utf8Marshal (s : List Nat) : List Nat :=
  (s.length % 65536 / 256 % 256) :: (s.length % 65536 % 256) :: s

/-- Decoding of a wire UTF8 string (`amf0UTF8.UnmarshalBinary`). -/
def utf8Unmarshal (data : List Nat) : GoRes AErr (List Nat) :=
  match data with
  | b0 :: b1 :: rest =>
      let size := b0 * 256 + b1
      if rest.length < size then .err .dataNotEnough
      else .ok (rest.take size)
  | _ => .err .dataNotEnough

mutual
/-- Serialized size of a value (the `Size` methods of `amf0.go`). -/
def sizeV : AValue → Nat
  | .anum _ => 1 + 8
  | .abool _ => 2
  | .astr s => 1 + utf8Size s
  | .aobj ps => 1 + 3 + sizeP ps
  | .aecma _ ps => 1 + 4 + 3 + sizeP ps
  | .astrict _ ps => 1 + 4 + sizeP ps
  | .anull => 1
  | .aundef => 1
  | .aobjEnd => 3

/-- Serialized size of a property list (`objectBase.Size`). -/
def sizeP : AProps → Nat
  | .nil => 0
  | .cons k v ps => utf8Size k + sizeV v + sizeP ps
end

mutual
/-- Serialization of a value (the `MarshalBinary` methods of `amf0.go`).
The `EcmaArray`/`StrictArray` count field is written through
`binary.Write` of a `uint32`, hence the `% 2^32`. -/
def marshalV : AValue → List Nat
  | .anum bits => 0 :: beBytes 8 bits
  | .abool b => [1, if b then 1 else 0]
  | .astr s => 2 :: utf8Marshal s
  | .aobj ps => 3 :: (marshalP ps ++ [0, 0, 9])
  | .aecma count ps => 8 :: (beBytes 4 (count % 4294967296) ++ (marshalP ps ++ [0, 0, 9]))
  | .astrict count ps => 10 :: (beBytes 4 (count % 4294967296) ++ marshalP ps)
  | .anull => [5]
  | .aundef => [6]
  | .aobjEnd => [0, 0, 9]

/-- Serialization of a property list (`objectBase.marshal`): each
property is its key in wire UTF8 form followed by its value. -/
def marshalP : AProps → List Nat
  | .nil => []
  | .cons k v ps => utf8Marshal k ++ (marshalV v ++ marshalP ps)
end

/-- Number of stored properties (`len(v.properties)`). -/
def propsLen : AProps → Nat
  | .nil => 0
  | .cons _ _ ps => 1 + propsLen ps

/-- Concatenation of property lists. -/
def pAppend : AProps → AProps → AProps
  | .nil, qs => qs
  | .cons k v ps, qs => .cons k v (pAppend ps qs)

/-- Membership of a key in a property list. -/
def keyMem (k : List Nat) : AProps → Bool
  | .nil => false
  | .cons k0 _ ps => k0 == k || keyMem k ps

/-- Replacement pass of `objectBase.Set`: every property whose key
matches is replaced, and the flag records whether any match occurred. -/
def propsReplace : AProps → List Nat → AValue → AProps × Bool
  | .nil, _, _ => (.nil, false)
  | .cons k0 v0 rest, k, v =>
      let r := propsReplace rest k v
      if k0 = k then (.cons k v r.1, true) else (.cons k0 v0 r.1, r.2)

/-- Update of `objectBase.Set`: replace all properties with the key, or
append a new property when the key is absent. -/
def propsSet (ps : AProps) (k : List Nat) (v : AValue) : AProps :=
  let r := propsReplace ps k v
  if r.2 then r.1 else pAppend r.1 (.cons k v .nil)

/-- Marker dispatch of `Discovery` (current variant of `amf0.go`):
markers with constructors succeed, the empty `case` arms fall through to
the `not supported` error, and the remaining markers are illegal. -/
def discovery (p : List Nat) : GoRes AErr Nat :=
  match p with
  | [] => .err .dataNotEnough
  | m :: _ =>
      if m = 0 ∨ m = 1 ∨ m = 2 ∨ m = 3 ∨ m = 5 ∨ m = 6 ∨ m = 8 ∨ m = 9 ∨ m = 10 then
        .ok m
      else if m = 7 ∨ m = 11 ∨ m = 12 ∨ m = 13 ∨ m = 15 ∨ m = 16 ∨ m = 17 then
        .err .notSupported
      else .err .markerIllegal

/-- Decoder of `Number.UnmarshalBinary`: length check, marker check,
then the 8 big-endian bits. -/
def numberUnmarshal (p : List Nat) : GoRes AErr AValue :=
  if p.length < 9 then .err .dataNotEnough
  else
    match p with
    | m :: rest =>
        if m ≠ 0 then .err .badTypeMarker
        else .ok (.anum (beVal (rest.take 8)))
    | [] => .err .dataNotEnough

/-- Decoder of `Boolean.UnmarshalBinary`: zero is false, anything else
is true. -/
def booleanUnmarshal (p : List Nat) : GoRes AErr AValue :=
  if p.length < 2 then .err .dataNotEnough
  else
    match p with
    | m :: b :: _ =>
        if m ≠ 1 then .err .badTypeMarker
        else .ok (.abool (b ≠ 0))
    | _ => .err .dataNotEnough

/-- Decoder of `String.UnmarshalBinary`. -/
def stringUnmarshal (p : List Nat) : GoRes AErr AValue :=
  match p with
  | [] => .err .dataNotEnough
  | m :: rest =>
      if m ≠ 2 then .err .badTypeMarker
      else
        match utf8Unmarshal rest with
        | .ok s => .ok (.astr s)
        | .err e => .err e
        | .panicked => .panicked

/-- Decoder of `singleMarkerObject.UnmarshalBinary` (null, undefined). -/
def singleMarkerUnmarshal (target : Nat) (p : List Nat) : GoRes AErr Unit :=
  match p with
  | [] => .err .dataNotEnough
  | m :: _ => if m ≠ target then .err .badTypeMarker else .ok ()

/-- Decoder of `objectEOF.UnmarshalBinary` (current variant): the local
`var p []byte` is never assigned from `data`, so `p[0]` indexes a nil
slice and the method panics on every input. -/
def objectEOFUnmarshal (_data : List Nat) : GoRes AErr Unit :=
  let p : List Nat := []
  if hp : 2 < p.length then
    if p.get ⟨0, by omega⟩ ≠ 0 ∨ p.get ⟨1, by omega⟩ ≠ 0 ∨ p.get ⟨2, hp⟩ ≠ 9 then
      .err .badTypeMarker
    else .ok ()
  else .panicked

mutual
/-- Property loop of `objectBase.unmarshal`: parse a wire key, discover
the following value, stop on the object-end sentinel when `eof` parsing
is on (`u.Size() == 2` is the empty key), otherwise unmarshal the value,
`Set` it, advance by the parsed sizes, and stop once `maxElems` is
reached.  Error wrapping of the Go code is dropped; the error kind is
passed through.  Fuel exhaustion (unreachable for the supplied fuels)
reports short data. -/
def parseProps : Nat → List Nat → Bool → Int → AProps → GoRes AErr AProps
  | 0, _, _, _, _ => .err .dataNotEnough
  | fuel + 1, p, eof, maxElems, acc =>
      if p = [] then .ok acc
      else
        match utf8Unmarshal p with
        | .err e => .err e
        | .panicked => .panicked
        | .ok u =>
            let p1 := p.drop (utf8Size u)
            match discovery p1 with
            | .err e => .err e
            | .panicked => .panicked
            | .ok m =>
                if eof ∧ utf8Size u = 2 ∧ m = 9 then .ok acc
                else
                  match parseElem fuel m p1 with
                  | .err e => .err e
                  | .panicked => .panicked
                  | .ok a =>
                      let acc1 := propsSet acc u a
                      let p2 := p1.drop (sizeV a)
                      if 0 < maxElems ∧ maxElems ≤ (propsLen acc1 : Int) then .ok acc1
                      else parseProps fuel p2 eof maxElems acc1

/-- Dispatch from a discovered marker to that value's `UnmarshalBinary`,
exactly as the property loop calls `a.UnmarshalBinary(p)` on the object
returned by `Discovery`. -/
def parseElem : Nat → Nat → List Nat → GoRes AErr AValue
  | 0, _, _ => .err .dataNotEnough
  | fuel + 1, m, p =>
      match m with
      | 0 => numberUnmarshal p
      | 1 => booleanUnmarshal p
      | 2 => stringUnmarshal p
      | 3 =>
          match objectUnmarshalF fuel .nil p with
          | .ok ps => .ok (.aobj ps)
          | .err e => .err e
          | .panicked => .panicked
      | 5 =>
          match singleMarkerUnmarshal 5 p with
          | .ok _ => .ok .anull
          | .err e => .err e
          | .panicked => .panicked
      | 6 =>
          match singleMarkerUnmarshal 6 p with
          | .ok _ => .ok .aundef
          | .err e => .err e
          | .panicked => .panicked
      | 8 => ecmaUnmarshalF fuel p
      | 9 =>
          match objectEOFUnmarshal p with
          | .ok _ => .ok .aobjEnd
          | .err e => .err e
          | .panicked => .panicked
      | 10 => strictUnmarshalF fuel p
      | _ => .err .markerIllegal

/-- Decoder of `Object.UnmarshalBinary`: marker check, then the property
loop with object-end detection, starting from the properties already
stored in the receiver (`init`). -/
def objectUnmarshalF : Nat → AProps → List Nat → GoRes AErr AProps
  | 0, _, _ => .err .dataNotEnough
  | fuel + 1, init, p =>
      match p with
      | [] => .err .dataNotEnough
      | m :: rest =>
          if m ≠ 3 then .err .badTypeMarker
          else parseProps fuel rest true (-1) init

/-- Decoder of `EcmaArray.UnmarshalBinary`: marker check, 4-byte count,
then the property loop with object-end detection. -/
def ecmaUnmarshalF : Nat → List Nat → GoRes AErr AValue
  | 0, _ => .err .dataNotEnough
  | fuel + 1, p =>
      if p.length < 5 then .err .dataNotEnough
      else
        match p with
        | [] => .err .dataNotEnough
        | m :: rest =>
            if m ≠ 8 then .err .badTypeMarker
            else
              let count := beVal (rest.take 4)
              match parseProps fuel (rest.drop 4) true (-1) .nil with
              | .ok ps => .ok (.aecma count ps)
              | .err e => .err e
              | .panicked => .panicked

/-- Decoder of `StrictArray.UnmarshalBinary`: marker check, 4-byte
count, then the property loop without object-end detection, capped at
`int(v.count)` elements. -/
def strictUnmarshalF : Nat → List Nat → GoRes AErr AValue
  | 0, _ => .err .dataNotEnough
  | fuel + 1, p =>
      if p.length < 5 then .err .dataNotEnough
      else
        match p with
        | [] => .err .dataNotEnough
        | m :: rest =>
            if m ≠ 10 then .err .badTypeMarker
            else
              let count := beVal (rest.take 4)
              match parseProps fuel (rest.drop 4) false (Int.ofNat count) .nil with
              | .ok ps => .ok (.astrict count ps)
              | .err e => .err e
              | .panicked => .panicked
end

/-- Top-level decode of one AMF0 value: `Discovery` on the leading byte
followed by the discovered value's `UnmarshalBinary`, with fuel
dominating the iteration count of every nested loop. -/
def amf0Unmarshal (p : List Nat) : GoRes AErr AValue :=
  match discovery p with
  | .ok m => parseElem (p.length + 1) m p
  | .err e => .err e
  | .panicked => .panicked

/-- Entry point of `Object.UnmarshalBinary` with the receiver holding
the properties `init`. -/
def objectUnmarshal (init : AProps) (p : List Nat) : GoRes AErr AProps :=
  objectUnmarshalF (p.length + 1) init p

mutual
/-- Well-formedness of a value as the public constructors of `amf0.go`
can build it: `Number` bits fit 64 bits, strings and keys fit the u16
length prefix, object keys are pairwise distinct (as `Set` enforces),
array counts fit `uint32`, a `StrictArray` count equals its positive
element count, and the `objectEOF` sentinel does not occur. -/
def wfV : AValue → Bool
  | .anum bits => decide (bits < 18446744073709551616)
  | .abool _ => true
  | .astr s => decide (s.length < 65536)
  | .aobj ps => wfP ps && keysNodup ps
  | .aecma count ps => decide (count < 4294967296) && (wfP ps && keysNodup ps)
  | .astrict count ps =>
      decide (count = propsLen ps) && (decide (0 < count) &&
        (decide (count < 4294967296) && (wfP ps && keysNodup ps)))
  | .anull => true
  | .aundef => true
  | .aobjEnd => false

/-- Well-formedness of each property: key fits the u16 prefix and the
value is well formed. -/
def wfP : AProps → Bool
  | .nil => true
  | .cons k v ps => decide (k.length < 65536) && (wfV v && wfP ps)

/-- Pairwise distinctness of the stored keys. -/
def keysNodup : AProps → Bool
  | .nil => true
  | .cons k _ ps => !keyMem k ps && keysNodup ps
end

mutual
/-- Fuel needed by `parseElem` on the serialization of a value. -/
def fuelV : AValue → Nat
  | .aobj ps => 2 + fuelP ps
  | .aecma _ ps => 2 + fuelP ps
  | .astrict _ ps => 2 + fuelP ps
  | _ => 1

/-- Fuel needed by `parseProps` on the serialization of a property
list. -/
def fuelP : AProps → Nat
  | .nil => 1
  | .cons _ v ps => 1 + max (fuelV v) (fuelP ps)
end

mutual
/-- Height of a value, driving the mutual induction below. -/
def hV : AValue → Nat
  | .aobj ps => hP ps + 1
  | .aecma _ ps => hP ps + 1
  | .astrict _ ps => hP ps + 1
  | _ => 1

/-- Height of a property list. -/
def hP : AProps → Nat
  | .nil => 0
  | .cons _ v ps => max (hV v) (hP ps) + 1
end

/-! ## AMF0 codec lemmas -/

theorem utf8Marshal_length (s : List Nat) :
    (utf8Marshal s).length = utf8Size s := by
  simp [utf8Marshal, utf8Size]; omega

mutual
theorem marshalV_length (v : AValue) : (marshalV v).length = sizeV v := by
  cases v with
  | anum bits => simp [marshalV, sizeV, beBytes_length]
  | abool b => simp [marshalV, sizeV]
  | astr s => simp [marshalV, sizeV, utf8Marshal, utf8Size]; omega
  | aobj ps => simp [marshalV, sizeV, marshalP_length ps]; omega
  | aecma count ps =>
      simp [marshalV, sizeV, marshalP_length ps, beBytes_length]; omega
  | astrict count ps =>
      simp [marshalV, sizeV, marshalP_length ps, beBytes_length]; omega
  | anull => rfl
  | aundef => rfl
  | aobjEnd => rfl

theorem marshalP_length (ps : AProps) : (marshalP ps).length = sizeP ps := by
  cases ps with
  | nil => rfl
  | cons k v ps =>
      simp [marshalP, sizeP, marshalV_length v, marshalP_length ps,
        utf8Marshal_length]
      omega
end

mutual
theorem fuelV_le_size (v : AValue) : fuelV v ≤ sizeV v + 1 := by
  cases v with
  | aobj ps => have := fuelP_le_size ps; simp [fuelV, sizeV]; omega
  | aecma count ps => have := fuelP_le_size ps; simp [fuelV, sizeV]; omega
  | astrict count ps => have := fuelP_le_size ps; simp [fuelV, sizeV]; omega
  | anum bits => simp [fuelV, sizeV]
  | abool b => simp [fuelV, sizeV]
  | astr s => simp [fuelV, sizeV]
  | anull => simp [fuelV, sizeV]
  | aundef => simp [fuelV, sizeV]
  | aobjEnd => simp [fuelV, sizeV]

theorem fuelP_le_size (ps : AProps) : fuelP ps ≤ sizeP ps + 1 := by
  cases ps with
  | nil => simp [fuelP, sizeP]
  | cons k v ps =>
      have h1 := fuelV_le_size v
      have h2 := fuelP_le_size ps
      simp [fuelP, sizeP, utf8Size]
      omega
end

theorem one_le_hV (v : AValue) : 1 ≤ hV v := by
  cases v <;> simp [hV]

theorem one_le_fuelV (v : AValue) : 1 ≤ fuelV v := by
  cases v <;> simp [fuelV] <;> omega

theorem utf8Unmarshal_marshal (s rest : List Nat) (h : s.length < 65536) :
    utf8Unmarshal (utf8Marshal s ++ rest) = .ok s := by
  have hs : s.length % 65536 = s.length := Nat.mod_eq_of_lt h
  have hsz : s.length % 65536 / 256 % 256 * 256 + s.length % 65536 % 256
      = s.length := by omega
  simp only [utf8Marshal, List.cons_append, utf8Unmarshal, hsz]
  rw [if_neg (by simp), take_append_length s rest s.length rfl]

theorem markerOf_ne_nine (v : AValue) (h : wfV v = true) : markerOf v ≠ 9 := by
  cases v <;> simp_all [markerOf, wfV]

theorem discovery_marshal (v : AValue) (h : wfV v = true) (rest : List Nat) :
    discovery (marshalV v ++ rest) = .ok (markerOf v) := by
  cases v <;> simp_all [discovery, marshalV, markerOf, wfV, utf8Marshal,
    List.cons_append, beBytes]

theorem pAppend_nil (ps : AProps) : pAppend ps .nil = ps := by
  match ps with
  | .nil => rfl
  | .cons k v rest => simp [pAppend, pAppend_nil rest]

theorem pAppend_assoc (a b c : AProps) :
    pAppend (pAppend a b) c = pAppend a (pAppend b c) := by
  match a with
  | .nil => rfl
  | .cons k v rest => simp [pAppend, pAppend_assoc rest b c]

theorem propsLen_pAppend (a b : AProps) :
    propsLen (pAppend a b) = propsLen a + propsLen b := by
  match a with
  | .nil => simp [pAppend, propsLen]
  | .cons k v rest => simp [pAppend, propsLen, propsLen_pAppend rest b]; omega

theorem keyMem_pAppend (k : List Nat) (a b : AProps) :
    keyMem k (pAppend a b) = (keyMem k a || keyMem k b) := by
  match a with
  | .nil => simp [pAppend, keyMem]
  | .cons k0 v rest =>
      simp [pAppend, keyMem, keyMem_pAppend k rest b, Bool.or_assoc]

theorem propsReplace_of_not_mem (ps : AProps) (k : List Nat) (v : AValue)
    (h : keyMem k ps = false) : propsReplace ps k v = (ps, false) := by
  match ps with
  | .nil => rfl
  | .cons k0 v0 rest =>
      simp [keyMem] at h
      simp [propsReplace, propsReplace_of_not_mem rest k v h.2, h.1]

theorem propsSet_fresh (ps : AProps) (k : List Nat) (v : AValue)
    (h : keyMem k ps = false) :
    propsSet ps k v = pAppend ps (.cons k v .nil) := by
  simp [propsSet, propsReplace_of_not_mem ps k v h]

/-- Freshness of every key of the first list with respect to the
second. -/
def keysFresh : AProps → AProps → Bool
  | .nil, _ => true
  | .cons k _ rest, acc => !keyMem k acc && keysFresh rest acc

theorem keysFresh_nil_acc (ps : AProps) : keysFresh ps .nil = true := by
  match ps with
  | .nil => rfl
  | .cons k v rest => simp [keysFresh, keyMem, keysFresh_nil_acc rest]

theorem keysFresh_step (ps acc : AProps) (k : List Nat) (v : AValue)
    (h1 : keysFresh ps acc = true) (h2 : keyMem k ps = false) :
    keysFresh ps (pAppend acc (.cons k v .nil)) = true := by
  match ps with
  | .nil => rfl
  | .cons k1 v1 rest =>
      simp [keysFresh] at h1
      simp [keyMem] at h2
      simp [keysFresh, keyMem_pAppend, keyMem, h1.1]
      constructor
      · intro hk; exact absurd hk.symm h2.1
      · exact keysFresh_step rest acc k v h1.2 h2.2

theorem parseProps_term (fuel : Nat) (hf : 1 ≤ fuel) (acc : AProps)
    (rest : List Nat) :
    parseProps fuel (0 :: 0 :: 9 :: rest) true (-1) acc = .ok acc := by
  obtain ⟨f, rfl⟩ : ∃ f, fuel = f + 1 := ⟨fuel - 1, by omega⟩
  simp [parseProps, utf8Unmarshal, utf8Size, discovery]

theorem parseProps_cons_step (f : Nat) (k : List Nat) (v : AValue)
    (Z : List Nat) (eof : Bool) (maxE : Int) (acc : AProps)
    (hk : k.length < 65536) (hv : wfV v = true)
    (hfresh : keyMem k acc = false)
    (hparse : parseElem f (markerOf v) (marshalV v ++ Z) = .ok v) :
    parseProps (f + 1) (utf8Marshal k ++ (marshalV v ++ Z)) eof maxE acc =
      if 0 < maxE ∧ maxE ≤ (propsLen (pAppend acc (.cons k v .nil)) : Int)
      then .ok (pAppend acc (.cons k v .nil))
      else parseProps f Z eof maxE (pAppend acc (.cons k v .nil)) := by
  have hne : utf8Marshal k ++ (marshalV v ++ Z) ≠ [] := by
    simp [utf8Marshal]
  have hm9 := markerOf_ne_nine v hv
  have hdrop1 : (utf8Marshal k ++ (marshalV v ++ Z)).drop (utf8Size k)
      = marshalV v ++ Z := drop_append_length _ _ _ (utf8Marshal_length k)
  have hdrop2 : (marshalV v ++ Z).drop (sizeV v) = Z :=
    drop_append_length _ _ _ (marshalV_length v)
  rw [parseProps, if_neg hne, utf8Unmarshal_marshal k _ hk]
  simp only [hdrop1, discovery_marshal v hv Z]
  rw [if_neg (by simp [hm9])]
  rw [hparse]
  simp only [propsSet_fresh acc k v hfresh, hdrop2]

theorem amf0RoundtripAux : ∀ n : Nat,
    (∀ v : AValue, hV v ≤ n → wfV v = true → ∀ fuel rest, fuelV v ≤ fuel →
      parseElem fuel (markerOf v) (marshalV v ++ rest) = .ok v)
    ∧ (∀ ps acc : AProps, hP ps ≤ n → wfP ps = true → keysNodup ps = true →
      keysFresh ps acc = true → ∀ fuel rest, fuelP ps ≤ fuel →
      parseProps fuel (marshalP ps ++ 0 :: 0 :: 9 :: rest) true (-1) acc =
        .ok (pAppend acc ps))
    ∧ (∀ ps acc : AProps, hP ps ≤ n → ps ≠ .nil → wfP ps = true →
      keysNodup ps = true → keysFresh ps acc = true → ∀ fuel rest,
      fuelP ps ≤ fuel →
      parseProps fuel (marshalP ps ++ rest) false
        ((propsLen acc : Int) + (propsLen ps : Int)) acc =
        .ok (pAppend acc ps)) := by
  intro n
  induction n with
  | zero =>
      refine ⟨fun v hh => absurd hh (by have := one_le_hV v; omega), ?_, ?_⟩
      · intro ps acc hh _ _ _ fuel rest hfuel
        match ps, hh with
        | .nil, _ =>
            rw [marshalP, List.nil_append, pAppend_nil]
            exact parseProps_term fuel (by simpa [fuelP] using hfuel) acc rest
        | .cons k v ps1, hh => simp [hP] at hh
      · intro ps acc hh hne
        match ps, hh with
        | .nil, _ => exact absurd rfl hne
        | .cons k v ps1, hh => simp [hP] at hh
  | succ n ih =>
      obtain ⟨ihV, ihE, ihS⟩ := ih
      refine ⟨?_, ?_, ?_⟩
      · -- value case
        intro v hh hwf fuel rest hfuel
        obtain ⟨f, rfl⟩ : ∃ f, fuel = f + 1 :=
          ⟨fuel - 1, by have := one_le_fuelV v; omega⟩
        match v, hh, hwf, hfuel with
        | .anum bits, _, hwf, _ =>
            simp only [wfV, decide_eq_true_eq] at hwf
            simp only [markerOf, marshalV, List.cons_append, parseElem,
              numberUnmarshal]
            rw [if_neg (by simp [beBytes_length])]
            rw [take_append_length _ rest 8 (beBytes_length 8 bits)]
            simp only [beVal_beBytes]
            norm_num
            omega
        | .abool b, _, _, _ =>
            cases b <;>
              simp [markerOf, marshalV, List.cons_append, parseElem,
                booleanUnmarshal]
        | .astr s, _, hwf, _ =>
            simp only [wfV, decide_eq_true_eq] at hwf
            simp only [markerOf, marshalV, List.cons_append, parseElem,
              stringUnmarshal]
            rw [utf8Unmarshal_marshal s rest hwf]
            simp
        | .anull, _, _, _ =>
            simp [markerOf, marshalV, List.cons_append, parseElem,
              singleMarkerUnmarshal]
        | .aundef, _, _, _ =>
            simp [markerOf, marshalV, List.cons_append, parseElem,
              singleMarkerUnmarshal]
        | .aobjEnd, _, hwf, _ => simp [wfV] at hwf
        | .aobj ps, hh, hwf, hfuel =>
            simp only [wfV, Bool.and_eq_true] at hwf
            simp only [hV] at hh
            simp only [fuelV] at hfuel
            obtain ⟨g, rfl⟩ : ∃ g, f = g + 1 := ⟨f - 1, by omega⟩
            simp only [markerOf, marshalV, List.cons_append, parseElem,
              objectUnmarshalF]
            rw [if_neg (by simp)]
            rw [List.append_assoc, List.cons_append, List.cons_append,
              List.cons_append, List.nil_append]
            rw [ihE ps .nil (by omega) hwf.1 hwf.2 (keysFresh_nil_acc ps) g
              rest (by omega)]
            rfl
        | .aecma count ps, hh, hwf, hfuel =>
            simp only [wfV, Bool.and_eq_true, decide_eq_true_eq] at hwf
            simp only [hV] at hh
            simp only [fuelV] at hfuel
            obtain ⟨g, rfl⟩ : ∃ g, f = g + 1 := ⟨f - 1, by omega⟩
            simp only [markerOf, marshalV, List.cons_append, parseElem,
              ecmaUnmarshalF]
            rw [if_neg (by simp [beBytes_length, marshalP_length])]
            rw [if_neg (by simp)]
            have hc : count % 4294967296 = count := Nat.mod_eq_of_lt hwf.1
            rw [List.append_assoc,
              take_append_length _ _ 4 (beBytes_length 4 _),
              drop_append_length _ _ 4 (beBytes_length 4 _)]
            rw [List.append_assoc, List.cons_append, List.cons_append,
              List.cons_append, List.nil_append]
            rw [ihE ps .nil (by omega) hwf.2.1 hwf.2.2 (keysFresh_nil_acc ps)
              g rest (by omega)]
            have hbe : beVal (beBytes 4 (count % 4294967296)) = count := by
              rw [beVal_beBytes]; norm_num; omega
            simp [hbe, pAppend]
        | .astrict count ps, hh, hwf, hfuel =>
            simp only [wfV, Bool.and_eq_true, decide_eq_true_eq] at hwf
            obtain ⟨hceq, hcpos, hclt, hwfp, hnd⟩ := hwf
            simp only [hV] at hh
            simp only [fuelV] at hfuel
            obtain ⟨g, rfl⟩ : ∃ g, f = g + 1 := ⟨f - 1, by omega⟩
            simp only [markerOf, marshalV, List.cons_append, parseElem,
              strictUnmarshalF]
            rw [if_neg (by simp [beBytes_length, marshalP_length])]
            rw [if_neg (by simp)]
            have hc : count % 4294967296 = count := Nat.mod_eq_of_lt hclt
            rw [List.append_assoc,
              take_append_length _ _ 4 (beBytes_length 4 _),
              drop_append_length _ _ 4 (beBytes_length 4 _)]
            have hne : ps ≠ .nil := by
              intro hnil; rw [hnil] at hceq; simp [propsLen] at hceq; omega
            have hbe : beVal (beBytes 4 (count % 4294967296)) = count := by
              rw [beVal_beBytes]; norm_num; omega
            have hmx : (Int.ofNat (beVal (beBytes 4 (count % 4294967296))))
                = ((propsLen AProps.nil : Int) + (propsLen ps : Int)) := by
              simp [hbe, propsLen]; omega
            rw [hmx]
            rw [ihS ps .nil (by omega) hne hwfp hnd (keysFresh_nil_acc ps)
              g rest (by omega)]
            simp [hbe, pAppend]
      · -- object-end terminated loop
        intro ps acc hh hwf hnd hfr fuel rest hfuel
        match ps, hh, hwf, hnd, hfr, hfuel with
        | .nil, _, _, _, _, hfuel =>
            rw [marshalP, List.nil_append, pAppend_nil]
            exact parseProps_term fuel (by simp [fuelP] at hfuel; omega) acc
              rest
        | .cons k v ps1, hh, hwf, hnd, hfr, hfuel =>
            simp only [wfP, Bool.and_eq_true, decide_eq_true_eq] at hwf
            obtain ⟨hk, hwv, hwp⟩ := hwf
            simp only [keysNodup, Bool.and_eq_true, Bool.not_eq_true'] at hnd
            simp only [keysFresh, Bool.and_eq_true, Bool.not_eq_true'] at hfr
            simp only [hP] at hh
            simp only [fuelP] at hfuel
            obtain ⟨f, rfl⟩ : ∃ f, fuel = f + 1 := ⟨fuel - 1, by omega⟩
            rw [marshalP, List.append_assoc, List.append_assoc]
            have hparse := ihV v (by omega) hwv f
              (marshalP ps1 ++ 0 :: 0 :: 9 :: rest) (by omega)
            rw [parseProps_cons_step f k v _ true (-1) acc hk hwv hfr.1
              (by rw [← List.append_assoc] at hparse ⊢; exact hparse)]
            rw [if_neg (by omega)]
            rw [ihE ps1 (pAppend acc (.cons k v .nil)) (by omega) hwp hnd.2
              (keysFresh_step ps1 acc k v hfr.2 hnd.1) f rest (by omega)]
            rw [pAppend_assoc]
            rfl
      · -- count-capped loop
        intro ps acc hh hne hwf hnd hfr fuel rest hfuel
        match ps, hne, hh, hwf, hnd, hfr, hfuel with
        | .cons k v ps1, _, hh, hwf, hnd, hfr, hfuel =>
            simp only [wfP, Bool.and_eq_true, decide_eq_true_eq] at hwf
            obtain ⟨hk, hwv, hwp⟩ := hwf
            simp only [keysNodup, Bool.and_eq_true, Bool.not_eq_true'] at hnd
            simp only [keysFresh, Bool.and_eq_true, Bool.not_eq_true'] at hfr
            simp only [hP] at hh
            simp only [fuelP] at hfuel
            obtain ⟨f, rfl⟩ : ∃ f, fuel = f + 1 := ⟨fuel - 1, by omega⟩
            rw [marshalP, List.append_assoc, List.append_assoc]
            have hparse := ihV v (by omega) hwv f
              (marshalP ps1 ++ rest) (by omega)
            rw [parseProps_cons_step f k v _ false _ acc hk hwv hfr.1
              (by rw [← List.append_assoc] at hparse ⊢; exact hparse)]
            have hlen : propsLen (pAppend acc (.cons k v .nil))
                = propsLen acc + 1 := by
              rw [propsLen_pAppend]; rfl
            match ps1, hwp, hnd, hfr, hh, hfuel with
            | .nil, _, _, _, _, _ =>
                have hcond : 0 < ((propsLen acc : Int) +
                    (propsLen (AProps.cons k v .nil) : Int)) ∧
                    ((propsLen acc : Int) +
                      (propsLen (AProps.cons k v .nil) : Int)) ≤
                    (propsLen (pAppend acc (AProps.cons k v .nil)) : Int) := by
                  rw [hlen]
                  simp only [propsLen]
                  push_cast
                  omega
                rw [if_pos hcond]
            | .cons k2 v2 ps2, hwp, hnd, hfr, hh, hfuel =>
                have hcond : ¬(0 < ((propsLen acc : Int) +
                    (propsLen (AProps.cons k v (.cons k2 v2 ps2)) : Int)) ∧
                    ((propsLen acc : Int) +
                      (propsLen (AProps.cons k v (.cons k2 v2 ps2)) : Int)) ≤
                    (propsLen (pAppend acc (AProps.cons k v .nil)) : Int)) := by
                  rw [hlen]
                  simp only [propsLen]
                  push_cast
                  omega
                rw [if_neg hcond]
                have hmx : ((propsLen acc : Int) +
                    (propsLen (.cons k v (.cons k2 v2 ps2)) : Int))
                    = ((propsLen (pAppend acc (.cons k v .nil)) : Int) +
                      (propsLen (.cons k2 v2 ps2) : Int)) := by
                  rw [hlen]
                  simp only [propsLen]
                  push_cast
                  omega
                rw [hmx]
                rw [ihS (.cons k2 v2 ps2) (pAppend acc (.cons k v .nil))
                  (by omega) (by simp) hwp hnd.2
                  (keysFresh_step _ acc k v hfr.2 hnd.1) f rest (by omega)]
                rw [pAppend_assoc]
                rfl

theorem parseElem_marshal (v : AValue) (h : wfV v = true) (fuel : Nat)
    (rest : List Nat) (hf : fuelV v ≤ fuel) :
    parseElem fuel (markerOf v) (marshalV v ++ rest) = .ok v :=
  (amf0RoundtripAux (hV v)).1 v le_rfl h fuel rest hf

theorem amf0Unmarshal_marshal (v : AValue) (h : wfV v = true) :
    amf0Unmarshal (marshalV v) = .ok v := by
  unfold amf0Unmarshal
  have hd : discovery (marshalV v) = .ok (markerOf v) := by
    have hd0 := discovery_marshal v h []
    rwa [List.append_nil] at hd0
  rw [hd]
  have hfuel : fuelV v ≤ (marshalV v).length + 1 := by
    have h1 := fuelV_le_size v
    have h2 := marshalV_length v
    omega
  have hp := parseElem_marshal v h ((marshalV v).length + 1) [] hfuel
  rwa [List.append_nil] at hp

/-! ## Claim C1: AMF0 round-trip -/

/-- C1 (amended): for every AMF0 value built from the supported
constructors — `Number` bits in 64 bits, strings and keys shorter than
2^16, distinct keys per object, counts below 2^32, and every
`StrictArray` count equal to its positive element count — unmarshaling
the bytes of `MarshalBinary` returns an equal value, and the marshaled
length equals `Size`.  (The length equation needs no hypotheses; the
decode half fails for a `StrictArray` with a stale count, see the
counterexample.) -/
theorem c1_amf0_roundtrip (v : AValue) (h : wfV v = true) :
    amf0Unmarshal (marshalV v) = .ok v ∧ (marshalV v).length = sizeV v :=
  ⟨amf0Unmarshal_marshal v h, marshalV_length v⟩

/-- C1 witness: a concrete object holding a number, a string, an ecma
array and a strict array round-trips. -/
theorem c1_amf0_roundtrip_witness :
    wfV (.aobj (.cons [97] (.anum 4607182418800017408) (.cons [98]
      (.astr [104, 105]) (.cons [99] (.aecma 0 (.cons [] .anull .nil))
        (.cons [100] (.astrict 1 (.cons [101] (.abool true) .nil))
          .nil))))) = true
    ∧ (amf0Unmarshal (marshalV (.aobj (.cons [97]
        (.anum 4607182418800017408) (.cons [98] (.astr [104, 105])
          (.cons [99] (.aecma 0 (.cons [] .anull .nil))
            (.cons [100] (.astrict 1 (.cons [101] (.abool true) .nil))
              .nil)))))) =
        .ok (.aobj (.cons [97] (.anum 4607182418800017408) (.cons [98]
          (.astr [104, 105]) (.cons [99] (.aecma 0 (.cons [] .anull .nil))
            (.cons [100] (.astrict 1 (.cons [101] (.abool true) .nil))
              .nil)))))
      ∧ (marshalV (.aobj (.cons [97] (.anum 4607182418800017408)
          (.cons [98] (.astr [104, 105]) (.cons [99]
            (.aecma 0 (.cons [] .anull .nil)) (.cons [100]
              (.astrict 1 (.cons [101] (.abool true) .nil))
                .nil)))))).length =
        sizeV (.aobj (.cons [97] (.anum 4607182418800017408) (.cons [98]
          (.astr [104, 105]) (.cons [99] (.aecma 0 (.cons [] .anull .nil))
            (.cons [100] (.astrict 1 (.cons [101] (.abool true) .nil))
              .nil)))))) :=
  ⟨by decide, c1_amf0_roundtrip _ (by decide)⟩

/-- C1 counterexample: the claim fails as stated.  The object
`\x7b a: StrictArray(count 0, no elements), b: Null \x7d` is built from
supported constructors only (`NewObject`, `Set`, `NewStrictArray`,
`NewNull`), yet unmarshaling its own marshaled bytes panics: the strict
array's count-capped loop (`maxElems = 0` disables the cap) runs past
the array into the sibling property and the object terminator, where
the marker-9 byte reaches `objectEOF.UnmarshalBinary` and dereferences
the nil buffer. -/
theorem c1_amf0_roundtrip_counterexample :
    amf0Unmarshal (marshalV (.aobj (.cons [97] (.astrict 0 .nil)
        (.cons [98] .anull .nil)))) ≠
      .ok (.aobj (.cons [97] (.astrict 0 .nil) (.cons [98] .anull .nil)))
    ∧ amf0Unmarshal (marshalV (.aobj (.cons [97] (.astrict 0 .nil)
        (.cons [98] .anull .nil)))) = .panicked := by
  constructor
  · decide
  · decide

/-! ## Claim C7: object-end decode safety -/

/-- C7: the claim is right and the code is wrong.  The current
`objectEOF.UnmarshalBinary` ignores its argument and indexes the
uninitialized local `p`, so it panics on every input — also on the
valid encoding `00 00 09` — and the panic is reachable from
`objectBase.unmarshal` through a strict array whose element byte is
marker 9 (`0A 00000001 0000 09`). -/
theorem c7_objecteof_panics :
    (∀ data : List Nat, objectEOFUnmarshal data = .panicked)
    ∧ objectEOFUnmarshal [0, 0, 9] = .panicked
    ∧ amf0Unmarshal [10, 0, 0, 0, 1, 0, 0, 9] = .panicked := by
  refine ⟨fun data => rfl, rfl, by decide⟩

/-! ## Claim C8: StrictArray wire format -/

/-- C8 counterexample: the bytes after the marker and count field of a
marshaled one-element `StrictArray` are not the element serialization:
the stored key is marshaled in front of the element, with its u16
length prefix, whichever way the count field is read (the stored count
0 or the element count 1). -/
theorem c8_strictarray_counterexample :
    marshalV (.astrict 0 (.cons [120] .anull .nil)) ≠
      10 :: (beBytes 4 0 ++ marshalV .anull)
    ∧ marshalV (.astrict 0 (.cons [120] .anull .nil)) ≠
      10 :: (beBytes 4 1 ++ marshalV .anull)
    ∧ marshalV (.astrict 0 (.cons [120] .anull .nil)) =
      [10, 0, 0, 0, 0, 0, 1, 120, 5] := by
  refine ⟨by decide, by decide, by decide⟩

/-- C8 (amended): marshaling a `StrictArray` produces the marker byte
10, the u32 big-endian stored count, then for each stored property its
u16-length-prefixed key followed by the value serialization, and no
terminator; when the stored count equals the positive element count
(and the properties are well formed) unmarshaling consumes exactly that
shape and returns the array. -/
theorem c8_strictarray_format (count : Nat) (ps : AProps)
    (h : wfV (.astrict count ps) = true) :
    marshalV (.astrict count ps) =
      10 :: (beBytes 4 (count % 4294967296) ++ marshalP ps)
    ∧ amf0Unmarshal (marshalV (.astrict count ps)) =
      .ok (.astrict count ps) :=
  ⟨rfl, amf0Unmarshal_marshal _ h⟩

/-- C8 witness: a two-element strict array with count 2. -/
theorem c8_strictarray_format_witness :
    wfV (.astrict 2 (.cons [120] .anull (.cons [121] (.anum 0) .nil)))
      = true
    ∧ (marshalV (.astrict 2 (.cons [120] .anull
          (.cons [121] (.anum 0) .nil))) =
        10 :: (beBytes 4 (2 % 4294967296) ++ marshalP (.cons [120] .anull
          (.cons [121] (.anum 0) .nil)))
      ∧ amf0Unmarshal (marshalV (.astrict 2 (.cons [120] .anull
          (.cons [121] (.anum 0) .nil)))) =
        .ok (.astrict 2 (.cons [120] .anull (.cons [121] (.anum 0)
          .nil)))) :=
  ⟨by decide, c8_strictarray_format 2 _ (by decide)⟩

/-! ## RTMP chunk and message layer

The embedding of `rtmp.go`.  The reader consumes a `List Nat` byte
stream and threads the remaining bytes; `io.ReadFull`-style reads are
written as pattern matches that fail with `shortRead` when the stream is
too short, which produces exactly the Go outcomes (error on short input,
the same fields otherwise). -/

/-- Error kinds of the rtmp package. -/
inductive RErr where
  | shortRead
  | dataNotEnough
  | freshChunkFmt
  | fmt0OnPartial
  | sizeChanged
  | emptyPacket
  | unknownMessageType
  | invalidCommandName
  | invalidTransactionID
  | noMatchedRequest
  | noRequestFor
  | unknownRequest
  | amf (e : AErr)
deriving DecidableEq, Repr

/-- RTMP message header (`MessageHeader`). -/
structure MHeader where
  timestampDelta : Nat := 0
  payloadLength : Nat := 0
  messageType : Nat := 0
  streamID : Nat := 0
  betterCid : Nat := 0
  timestamp : Nat := 0
deriving DecidableEq, Repr

/-- RTMP message (`Message`): header plus payload. -/
structure RMsg where
  hdr : MHeader := {}
  payload : List Nat := []
deriving DecidableEq, Repr

/-- Chunk stream demux state (`chunkStream`).  `newChunkStream` zeroes
every field — in particular `cid` stays 0; `ReadMessage` only assigns
`header.betterCid`. -/
structure CStream where
  format : Nat := 0
  cid : Nat := 0
  header : MHeader := {}
  message : Option RMsg := none
  count : Nat := 0
  extendedTimestamp : Bool := false
deriving DecidableEq, Repr

/-- Protocol reader state: `input.opt.chunkSize` (initially 128), the
chunk stream map, and the transaction table keyed by the Number bit
pattern of the transaction id. -/
structure PState where
  inChunkSize : Nat := 128
  chunks : List (Nat × CStream) := []
  transactions : List (Nat × List Nat) := []
deriving DecidableEq, Repr

/-- Lookup in a Go map modelled as an association list. -/
def mapGet {α : Type} : List (Nat × α) → Nat → Option α
  | [], _ => none
  | (k0, v0) :: rest, k => if k0 = k then some v0 else mapGet rest k

/-- Insert-or-replace in a Go map. -/
def mapSet {α : Type} : List (Nat × α) → Nat → α → List (Nat × α)
  | [], k, v => [(k, v)]
  | (k0, v0) :: rest, k, v =>
      if k0 = k then (k, v) :: rest else (k0, v0) :: mapSet rest k v

/-- Deletion from a Go map. -/
def mapDel {α : Type} : List (Nat × α) → Nat → List (Nat × α)
  | [], _ => []
  | (k0, v0) :: rest, k =>
      if k0 = k then mapDel rest k else (k0, v0) :: mapDel rest k

/-- Basic header parse (`readBasicHeader`): `cid = t & 0x3f`,
`fmt = (t >> 6) & 0x03`; one extra byte when the six bits are 0 or 1.
The three-byte form is dead code in the source: the `cid == 1` test runs
after `cid` was reassigned to `64 + b2 >= 64`. -/
def readBasicHeader (input : List Nat) : GoRes RErr (Nat × Nat × List Nat) :=
  match input with
  | [] => .err .shortRead
  | t :: rest =>
      let cid := t % 64
      let fmt := t / 64 % 4
      if 1 < cid then .ok (fmt, cid, rest)
      else
        match rest with
        | [] => .err .shortRead
        | b2 :: rest2 =>
            let cid2 := 64 + b2
            if cid2 = 1 then
              match rest2 with
              | [] => .err .shortRead
              | b3 :: rest3 => .ok (fmt, cid2 + b3 * 256, rest3)
            else .ok (fmt, cid2, rest2)

/-- The 24-bit read of `readMessageHeader`:
`uint32(p[0]<<16) | uint32(p[1])<<8 | uint32(p[2])`.  The first shift is
performed on a `byte` operand, so it truncates to zero before the
`uint32` conversion and the high byte is dropped. -/
def u24of (a b c : Nat) : Nat := (a <<< 16) % 256 + ((b <<< 8) + c)

theorem u24of_eq (a b c : Nat) : u24of a b c = b * 256 + c := by
  simp [u24of, Nat.shiftLeft_eq]
  omega

/-- Tail of `readMessageHeader`: the extended-timestamp read when the
sticky flag is set (value masked to 31 bits), the unconditional 31-bit
mask, the header copy into the message under assembly, and the count
increment. -/
def rmhFinish (c : CStream) (rest : List Nat) :
    GoRes RErr (CStream × List Nat) :=
  match (if c.extendedTimestamp then
      match rest with
      | r0 :: r1 :: r2 :: r3 :: rest4 =>
          let ts := beVal [r0, r1, r2, r3] % 2147483648
          some ({ c with header := { c.header with timestamp := ts } }, rest4)
      | _ => none
    else some (c, rest)) with
  | none => .err .shortRead
  | some (c1, rest1) =>
      let ts2 := c1.header.timestamp % 2147483648
      let c2 := { c1 with header := { c1.header with timestamp := ts2 } }
      match c2.message with
      | none => .panicked
      | some m =>
          .ok ({ c2 with message := some { m with hdr := c2.header }, count := c2.count + 1 }, rest1)

/-- Message header parse (`readMessageHeader`) over one chunk stream:
format guards, the per-format field reads, the extended-timestamp read
(dead in practice because the broken 24-bit read caps the delta at
65535), the 31-bit mask, the header copy into the message under
assembly, and the count increment. -/
def readMessageHeader (chunk : CStream) (fmt : Nat) (input : List Nat) :
    GoRes RErr (CStream × List Nat) :=
  let isFirstChunkOfMsg := chunk.message.isNone
  if chunk.count = 0 ∧ fmt ≠ 0 ∧ ¬(chunk.cid = 2 ∧ fmt = 1) then
    .err .freshChunkFmt
  else if chunk.message.isSome ∧ fmt = 0 then .err .fmt0OnPartial
  else
    let c0 := if chunk.message.isNone then { chunk with message := some {} } else chunk
    if fmt ≤ 2 then
      match input with
      | t0 :: t1 :: t2 :: input3 =>
          let d := u24of t0 t1 t2
          let c1 := { c0 with header := { c0.header with timestampDelta := d }, extendedTimestamp := false }
          let c2 :=
            if 16777215 ≤ d then
              let ts := if fmt = 0 then d else c1.header.timestamp + d
              { c1 with extendedTimestamp := true, header := { c1.header with timestamp := ts } }
            else c1
          if fmt ≤ 1 then
            match input3 with
            | q0 :: q1 :: q2 :: ty :: input7 =>
                let pl := u24of q0 q1 q2
                if ¬isFirstChunkOfMsg ∧ c2.header.payloadLength ≠ pl then
                  .err .sizeChanged
                else
                  let c3 := { c2 with header := { c2.header with payloadLength := pl, messageType := ty } }
                  if fmt = 0 then
                    match input7 with
                    | s0 :: s1 :: s2 :: s3 :: rest =>
                        let sid := s0 + s1 * 256 + s2 * 65536 + s3 * 16777216
                        rmhFinish { c3 with header := { c3.header with streamID := sid } } rest
                    | _ => .err .shortRead
                  else rmhFinish c3 input7
            | _ => .err .shortRead
          else rmhFinish c2 input3
      | _ => .err .shortRead
    else
      let c2 :=
        if isFirstChunkOfMsg ∧ !c0.extendedTimestamp then
          let ts := c0.header.timestamp + c0.header.timestampDelta
          { c0 with header := { c0.header with timestamp := ts } }
        else c0
      rmhFinish c2 input

/-- Payload accumulation (`readMessagePayload`): an empty-payload
message completes immediately; otherwise read
`min(remaining, input.chunk_size)` bytes, append them, and complete the
message when the declared length is reached. -/
def readMessagePayload (chunk : CStream) (chunkSize : Nat)
    (input : List Nat) : GoRes RErr (CStream × Option RMsg × List Nat) :=
  match chunk.message with
  | none => .panicked
  | some msg =>
      if msg.hdr.payloadLength = 0 then
        .ok ({ chunk with message := none }, some msg, input)
      else
        let sz := min (msg.hdr.payloadLength - msg.payload.length) chunkSize
        if input.length < sz then .err .shortRead
        else
          let msg1 := { msg with payload := msg.payload ++ input.take sz }
          if msg1.hdr.payloadLength = msg1.payload.length then
            .ok ({ chunk with message := none }, some msg1, input.drop sz)
          else .ok ({ chunk with message := some msg1 }, none, input.drop sz)

/-! ## RTMP packet layer -/

/-- Bytes of the command name literal `connect`. -/
def commandConnectB : List Nat := [99, 111, 110, 110, 101, 99, 116]

/-- Bytes of the command name literal `_result`. -/
def commandResultB : List Nat := [95, 114, 101, 115, 117, 108, 116]

/-- Bytes of the command name literal `_error`. -/
def commandErrorB : List Nat := [95, 101, 114, 114, 111, 114]

/-- IEEE 754 bit pattern of the `float64` value `1.0`. -/
def numberOneBits : Nat := 4607182418800017408

/-- Decoder of `String.UnmarshalBinary` returning the raw string value
(the rtmp package decodes command names with it). -/
def amf0StringUnmarshal (p : List Nat) : GoRes AErr (List Nat) :=
  match p with
  | [] => .err .dataNotEnough
  | m :: rest => if m ≠ 2 then .err .badTypeMarker else utf8Unmarshal rest

/-- Decoder of `Number.UnmarshalBinary` returning the raw bit
pattern. -/
def amf0NumberUnmarshal (p : List Nat) : GoRes AErr Nat :=
  if p.length < 9 then .err .dataNotEnough
  else
    match p with
    | m :: rest => if m ≠ 0 then .err .badTypeMarker else .ok (beVal (rest.take 8))
    | [] => .err .dataNotEnough

/-- An AMF call packet (`objectCallPacket`): command name, transaction
id bits, command object, optional args object. -/
structure CallPkt where
  name : List Nat
  tid : Nat
  cmdObject : AProps
  args : Option AProps
deriving DecidableEq, Repr

/-- The typed packets of the rtmp package. -/
inductive RPacket where
  | connectApp (c : CallPkt)
  | connectAppRes (c : CallPkt)
  | setChunkSize (v : Nat)
  | windowAckSize (v : Nat)
  | setPeerBandwidth (bw : Nat) (lt : Nat)
deriving DecidableEq, Repr

/-- Decoder of `objectCallPacket.UnmarshalBinary`: command name,
transaction id, command object (into the receiver's current object,
`initObj`), then an optional args object when bytes remain.  The cursor
advances by the `Size()` of each parsed field, as the Go code does. -/
def objectCallUnmarshal (initObj : AProps) (p : List Nat) :
    GoRes RErr CallPkt :=
  match amf0StringUnmarshal p with
  | .err e => .err (.amf e)
  | .panicked => .panicked
  | .ok name =>
      let p1 := p.drop (1 + utf8Size name)
      match amf0NumberUnmarshal p1 with
      | .err e => .err (.amf e)
      | .panicked => .panicked
      | .ok tid =>
          let p2 := p1.drop 9
          match objectUnmarshal initObj p2 with
          | .err e => .err (.amf e)
          | .panicked => .panicked
          | .ok obj =>
              let p3 := p2.drop (sizeV (.aobj obj))
              if p3 = [] then .ok ⟨name, tid, obj, none⟩
              else
                match objectUnmarshal .nil p3 with
                | .err e => .err (.amf e)
                | .panicked => .panicked
                | .ok args => .ok ⟨name, tid, obj, some args⟩

/-- Decoder of `ConnectAppResPacket.UnmarshalBinary`: the call shape
followed by the `_result` command-name check. -/
def connectAppResUnmarshal (initObj : AProps) (p : List Nat) :
    GoRes RErr CallPkt :=
  match objectCallUnmarshal initObj p with
  | .ok call =>
      if call.name ≠ commandResultB then .err .invalidCommandName
      else .ok call
  | .err e => .err e
  | .panicked => .panicked

/-- Decoder of `ConnectAppPacket.UnmarshalBinary`: the call shape
followed by the `connect` name check and the `1.0` transaction-id
check. -/
def connectAppUnmarshal (initObj : AProps) (p : List Nat) :
    GoRes RErr CallPkt :=
  match objectCallUnmarshal initObj p with
  | .ok call =>
      if call.name ≠ commandConnectB then .err .invalidCommandName
      else if call.tid ≠ numberOneBits then .err .invalidTransactionID
      else .ok call
  | .err e => .err e
  | .panicked => .panicked

/-- Decoder of `SetChunkSize.UnmarshalBinary`. -/
def setChunkSizeUnmarshal (data : List Nat) : GoRes RErr Nat :=
  if data.length < 4 then .err .dataNotEnough
  else .ok (beVal (data.take 4))

/-- Decoder of `WindowAcknowledgementSize.UnmarshalBinary`. -/
def windowAckUnmarshal (data : List Nat) : GoRes RErr Nat :=
  if data.length < 4 then .err .dataNotEnough
  else .ok (beVal (data.take 4))

/-- Decoder of `SetPeerBandwidth.UnmarshalBinary`. -/
def setPeerBandwidthUnmarshal (data : List Nat) : GoRes RErr (Nat × Nat) :=
  if data.length < 5 then .err .dataNotEnough
  else .ok (beVal (data.take 4), data.getD 4 0)

/-- Transaction correlation (`Protocol.parseAMFObject`): parse the
command name; for `_result`/`_error` parse the transaction id, look it
up in (and remove it from) the transaction table, and dispatch to the
response decoder of the recorded request; otherwise report the errors
of the source.  Returns the packet outcome together with the updated
transaction table. -/
def parseAMFObject (p : List Nat) (trans : List (Nat × List Nat)) :
    GoRes RErr RPacket × List (Nat × List Nat) :=
  match amf0StringUnmarshal p with
  | .err e => (.err (.amf e), trans)
  | .panicked => (.panicked, trans)
  | .ok name =>
      if name = commandResultB ∨ name = commandErrorB then
        match amf0NumberUnmarshal (p.drop (1 + utf8Size name)) with
        | .err e => (.err (.amf e), trans)
        | .panicked => (.panicked, trans)
        | .ok tid =>
            match mapGet trans tid with
            | none => (.err .noMatchedRequest, trans)
            | some reqName =>
                let trans1 := mapDel trans tid
                if reqName = commandConnectB then
                  match connectAppResUnmarshal .nil p with
                  | .ok call => (.ok (.connectAppRes call), trans1)
                  | .err e => (.err e, trans1)
                  | .panicked => (.panicked, trans1)
                else (.err .noRequestFor, trans1)
      else (.err .unknownRequest, trans)

/-- Message decode (`Protocol.DecodeMessage`): empty payloads are
rejected, AMF3 envelopes skip one byte, control types decode their
fixed fields, AMF types go through `parseAMFObject` and are then
unmarshaled a second time (line `pkt.UnmarshalBinary(p)` runs for every
branch), and every other type — including `UserControl` — is an
unknown-message-type error. -/
def decodeMessage (m : RMsg) (st : PState) : GoRes RErr RPacket × PState :=
  if m.payload = [] then (.err .emptyPacket, st)
  else
    let p := if m.hdr.messageType = 17 ∨ m.hdr.messageType = 15
      then m.payload.drop 1 else m.payload
    if m.hdr.messageType = 1 then
      match setChunkSizeUnmarshal p with
      | .ok v => (.ok (.setChunkSize v), st)
      | .err e => (.err e, st)
      | .panicked => (.panicked, st)
    else if m.hdr.messageType = 5 then
      match windowAckUnmarshal p with
      | .ok v => (.ok (.windowAckSize v), st)
      | .err e => (.err e, st)
      | .panicked => (.panicked, st)
    else if m.hdr.messageType = 6 then
      match setPeerBandwidthUnmarshal p with
      | .ok v => (.ok (.setPeerBandwidth v.1 v.2), st)
      | .err e => (.err e, st)
      | .panicked => (.panicked, st)
    else if m.hdr.messageType = 20 ∨ m.hdr.messageType = 17
        ∨ m.hdr.messageType = 18 ∨ m.hdr.messageType = 15 then
      match parseAMFObject p st.transactions with
      | (.ok pkt, trans1) =>
          let st1 := { st with transactions := trans1 }
          match pkt with
          | .connectAppRes call =>
              match connectAppResUnmarshal call.cmdObject p with
              | .ok call2 => (.ok (.connectAppRes call2), st1)
              | .err e => (.err e, st1)
              | .panicked => (.panicked, st1)
          | other => (.ok other, st1)
      | (.err e, trans1) => (.err e, { st with transactions := trans1 })
      | (.panicked, trans1) => (.panicked, { st with transactions := trans1 })
    else (.err .unknownMessageType, st)

/-- Read-side hook (`Protocol.onMessageArrivated`): `SetChunkSize`,
`UserControl` and `WindowAcknowledgementSize` messages are decoded, any
decode error propagates (failing `ReadMessage`), and a decoded
`SetChunkSize` updates `input.chunk_size`. -/
def onMessageArrivated (m : RMsg) (st : PState) : GoRes RErr PState :=
  if m.hdr.messageType = 1 ∨ m.hdr.messageType = 4 ∨ m.hdr.messageType = 5
  then
    match decodeMessage m st with
    | (.ok pkt, st1) =>
        match pkt with
        | .setChunkSize v => .ok { st1 with inChunkSize := v }
        | _ => .ok st1
    | (.err e, _) => .err e
    | (.panicked, _) => .panicked
  else .ok st

/-- `Protocol.onMessageArrivated` as invoked by `ReadMessage` with a
possibly-nil `*Message` argument: the function's first action is the
`switch m.messageType` selector, which dereferences the pointer, so a
nil message — the value `readMessagePayload` returns while the
assembly is incomplete — panics before anything else happens. -/
def onMessageArrivatedNil (m : Option RMsg) (st : PState) :
    GoRes RErr PState :=
  match m with
  | none => .panicked
  | some msg => onMessageArrivated msg st

/-- Message read loop (`Protocol.ReadMessage`): basic header, chunk
stream lookup or creation (`newChunkStream` leaves `cid` zero and only
`header.betterCid` is assigned), message header, payload, and the
arrival hook, which the source invokes unconditionally — also with the
nil message of a not-yet-complete assembly, where its `m.messageType`
selector panics, so the loop's continuation branch is dead.  Fuel
dominates the iteration count: every iteration consumes the basic
header byte. -/
def readMessage : Nat → PState → List Nat → GoRes RErr (RMsg × PState × List Nat)
  | 0, _, _ => .err .shortRead
  | fuel + 1, st, input =>
      match readBasicHeader input with
      | .err e => .err e
      | .panicked => .panicked
      | .ok (fmt, cid, rest) =>
          let chunk := match mapGet st.chunks cid with
            | some c => c
            | none => { header := { betterCid := cid } }
          match readMessageHeader chunk fmt rest with
          | .err e => .err e
          | .panicked => .panicked
          | .ok (chunk1, rest1) =>
              match readMessagePayload chunk1 st.inChunkSize rest1 with
              | .err e => .err e
              | .panicked => .panicked
              | .ok (chunk2, om, rest2) =>
                  let st1 := { st with chunks := mapSet st.chunks cid chunk2 }
                  match onMessageArrivatedNil om st1 with
                  | .err e => .err e
                  | .panicked => .panicked
                  | .ok st2 =>
                      match om with
                      | some m => .ok (m, st2, rest2)
                      | none => readMessage fuel st2 rest2

/-- One `ReadMessage` call of a fresh `Protocol` over a byte stream. -/
def protocolReadMessage (input : List Nat) :
    GoRes RErr (RMsg × PState × List Nat) :=
  readMessage (input.length + 1) {} input

/-! ## RTMP chunk writer -/

/-- Chunk header for continuation chunks (`Message.generateC3Header`):
`0xC0 | (betterCid & 0x3f)`, plus the extended timestamp bytes when the
timestamp reaches the sentinel. -/
def generateC3Header (m : RMsg) : List Nat :=
  (192 + m.hdr.betterCid % 64) ::
    (if m.hdr.timestamp < 16777215 then []
     else [m.hdr.timestamp / 16777216 % 256, m.hdr.timestamp / 65536 % 256,
       m.hdr.timestamp / 256 % 256, m.hdr.timestamp % 256])

/-- Chunk header for the first chunk (`Message.generateC0Header`,
format 0): `byte(betterCid) & 0x3f`, the 3-byte timestamp or the
`FF FF FF` sentinel, the 3-byte payload length, the type byte, the
little-endian stream id, and the 4-byte extended timestamp when the
sentinel was written. -/
def generateC0Header (m : RMsg) : List Nat :=
  (m.hdr.betterCid % 256 % 64) ::
    (if m.hdr.timestamp < 16777215 then
      [m.hdr.timestamp / 65536 % 256, m.hdr.timestamp / 256 % 256,
        m.hdr.timestamp % 256]
     else [255, 255, 255]) ++
    [m.hdr.payloadLength / 65536 % 256, m.hdr.payloadLength / 256 % 256,
      m.hdr.payloadLength % 256, m.hdr.messageType % 256,
      m.hdr.streamID % 256, m.hdr.streamID / 256 % 256,
      m.hdr.streamID / 65536 % 256, m.hdr.streamID / 16777216 % 256] ++
    (if m.hdr.timestamp < 16777215 then []
     else [m.hdr.timestamp / 16777216 % 256, m.hdr.timestamp / 65536 % 256,
       m.hdr.timestamp / 256 % 256, m.hdr.timestamp % 256])

/-- Chunking loop of `Protocol.writeMessage`: the first chunk carries
the Type0 header, continuations the Type3 header, each followed by at
most `output.chunk_size` payload bytes.  Fuel dominates the iteration
count (each iteration emits at least one payload byte for a positive
chunk size). -/
def writeMessageLoop : Nat → List Nat → Bool → List Nat → List Nat → Nat → List Nat
  | 0, _, _, _, _, _ => []
  | fuel + 1, p, first, c0h, c3h, cs =>
      if p = [] then []
      else
        let h := if first then c0h else c3h
        let size := min p.length cs
        h ++ p.take size ++ writeMessageLoop fuel (p.drop size) false c0h c3h cs

/-- Byte stream produced by `Protocol.writeMessage` for one message.  An
empty payload never enters the loop, so nothing is written. -/
def writeMessage (m : RMsg) (outChunkSize : Nat) : List Nat :=
  writeMessageLoop (m.payload.length + 1) m.payload true
    (generateC0Header m) (generateC3Header m) outChunkSize

/-- Payload serialization of each packet (the `MarshalBinary`
methods). -/
def packetMarshal : RPacket → List Nat
  | .connectApp c => marshalV (.astr c.name) ++ marshalV (.anum c.tid)
      ++ marshalV (.aobj c.cmdObject)
      ++ (match c.args with | none => [] | some a => marshalV (.aobj a))
  | .connectAppRes c => marshalV (.astr c.name) ++ marshalV (.anum c.tid)
      ++ marshalV (.aobj c.cmdObject)
      ++ (match c.args with | none => [] | some a => marshalV (.aobj a))
  | .setChunkSize v => beBytes 4 (v % 4294967296)
  | .windowAckSize v => beBytes 4 (v % 4294967296)
  | .setPeerBandwidth bw lt => beBytes 4 (bw % 4294967296) ++ [lt % 256]

/-- Message type of each packet (the `Type` methods). -/
def packetType : RPacket → Nat
  | .connectApp _ => 20
  | .connectAppRes _ => 20
  | .setChunkSize _ => 1
  | .windowAckSize _ => 5
  | .setPeerBandwidth _ _ => 6

/-- Chunk stream id of each packet (the `BetterCid` methods). -/
def packetBetterCid : RPacket → Nat
  | .connectApp _ => 3
  | .connectAppRes _ => 3
  | .setChunkSize _ => 2
  | .windowAckSize _ => 2
  | .setPeerBandwidth _ _ => 2

/-- Write-side hook (`Protocol.onPacketWriten`): a `ConnectAppPacket`
records `(transaction id -> command name)` in the transaction table. -/
def onPacketWriten (pkt : RPacket) (st : PState) : PState :=
  match pkt with
  | .connectApp c =>
      { st with transactions := mapSet st.transactions c.tid c.name }
  | _ => st

/-- The write path (`Protocol.WritePacket`): marshal the packet into a
message carrying its type and better cid, emit the chunked bytes, and
run the write hook. -/
def writePacket (pkt : RPacket) (streamID : Nat) (st : PState)
    (outChunkSize : Nat) : List Nat × PState :=
  let payload := packetMarshal pkt
  let h : MHeader := { payloadLength := payload.length % 4294967296,
                       messageType := packetType pkt,
                       streamID := streamID % 4294967296,
                       betterCid := packetBetterCid pkt }
  let m : RMsg := { hdr := h, payload := payload }
  (writeMessage m outChunkSize, onPacketWriten pkt st)

/-! ## Chunk round-trip lemmas -/

theorem readBasicHeader_one (cid : Nat) (rest : List Nat) (h1 : 2 ≤ cid)
    (h2 : cid < 64) : readBasicHeader (cid :: rest) = .ok (0, cid, rest) := by
  have hm : cid % 64 = cid := Nat.mod_eq_of_lt h2
  have hf : cid / 64 % 4 = 0 := by omega
  simp [readBasicHeader, hm, hf]
  omega

theorem readBasicHeader_c3 (cid : Nat) (rest : List Nat) (h1 : 2 ≤ cid)
    (h2 : cid < 64) :
    readBasicHeader ((192 + cid % 64) :: rest) = .ok (3, cid, rest) := by
  have hm : (192 + cid % 64) % 64 = cid := by omega
  have hf : (192 + cid % 64) / 64 % 4 = 3 := by omega
  simp [readBasicHeader, hm, hf]
  omega

/-- Shorthand for the demuxed header produced by a fresh Type0 chunk
with a small timestamp field. -/
def mkHdr (dlt pl ty sid cid : Nat) : MHeader :=
  { timestampDelta := dlt, payloadLength := pl, messageType := ty, streamID := sid, betterCid := cid, timestamp := 0 }

/-- Shorthand for the chunk stream state while a message with header
`mkHdr dlt pl ty sid cid` is being assembled. -/
def mkCStream (dlt pl ty sid cid : Nat) (done : List Nat) (cnt : Nat) : CStream :=
  { format := 0, cid := 0, header := mkHdr dlt pl ty sid cid, message := some { hdr := mkHdr dlt pl ty sid cid, payload := done }, count := cnt, extendedTimestamp := false }

theorem readMessageHeader_fresh0 (cid t0 t1 t2 q0 q1 q2 ty s0 s1 s2 s3 : Nat)
    (rest : List Nat) (hd : u24of t0 t1 t2 < 16777215) :
    readMessageHeader { header := { betterCid := cid } } 0
      (t0 :: t1 :: t2 :: q0 :: q1 :: q2 :: ty :: s0 :: s1 :: s2 :: s3 :: rest)
    = .ok (mkCStream (u24of t0 t1 t2) (u24of q0 q1 q2) ty
        (s0 + s1 * 256 + s2 * 65536 + s3 * 16777216) cid [] 1, rest) := by
  simp [readMessageHeader, rmhFinish, Nat.not_lt.mpr (Nat.le_of_lt hd),
    if_neg (Nat.not_le.mpr hd), mkCStream, mkHdr]

theorem readMessageHeader_cont3 (c : CStream) (msg : RMsg)
    (input : List Nat) (hc : c.count ≠ 0) (hm : c.message = some msg)
    (he : c.extendedTimestamp = false) (hts : c.header.timestamp = 0) :
    readMessageHeader c 3 input =
      .ok ({ c with message := some { msg with hdr := c.header }, count := c.count + 1 }, input) := by
  simp [readMessageHeader, rmhFinish, hm, hc, he, hts]
  rw [← hts]

theorem writeMessageLoop_nil (f : Nat) (first : Bool) (c0h c3h : List Nat)
    (cs : Nat) : writeMessageLoop f [] first c0h c3h cs = [] := by
  cases f <;> simp [writeMessageLoop]

theorem writeMessageLoop_length_ge (f : Nat) (p : List Nat) (first : Bool)
    (c0h c3h : List Nat) (cs : Nat) (hcs : 1 ≤ cs) (hf : p.length ≤ f) :
    p.length ≤ (writeMessageLoop f p first c0h c3h cs).length := by
  induction f generalizing p first with
  | zero =>
      have hp : p = [] := by
        cases p with
        | nil => rfl
        | cons a l => simp at hf
      simp [hp, writeMessageLoop]
  | succ f ih =>
      by_cases hp : p = []
      · simp [hp, writeMessageLoop]
      · have hlen1 : 1 ≤ p.length := by
          cases p with
          | nil => exact absurd rfl hp
          | cons a l => simp
        rw [writeMessageLoop, if_neg hp]
        have hrec := ih (p.drop (min p.length cs)) false
          (by simp [List.length_drop]; omega)
        simp only [List.length_append, List.length_take, List.length_drop]
          at hrec ⊢
        omega

theorem readMessage_write_aux (m : RMsg) (extra : List Nat) (fuel : Nat)
    (hts : m.hdr.timestamp = 0)
    (hpl : m.hdr.payloadLength = m.payload.length)
    (hL1 : 1 ≤ m.payload.length) (hL2 : m.payload.length ≤ 128)
    (hcid1 : 2 ≤ m.hdr.betterCid) (hcid2 : m.hdr.betterCid < 64)
    (hsid : m.hdr.streamID < 4294967296) (htyb : m.hdr.messageType < 256)
    (htyn : ¬(m.hdr.messageType = 1 ∨ m.hdr.messageType = 4
      ∨ m.hdr.messageType = 5)) :
    ∃ st' : PState, readMessage (fuel + 1) {} (writeMessage m 128 ++ extra)
      = .ok ({ hdr := mkHdr 0 m.hdr.payloadLength m.hdr.messageType m.hdr.streamID m.hdr.betterCid, payload := m.payload }, st', extra) := by
  have hpne : m.payload ≠ [] := by
    cases hp : m.payload with
    | nil => rw [hp] at hL1; simp at hL1
    | cons a l => simp
  have hcidb : m.hdr.betterCid % 256 % 64 = m.hdr.betterCid := by omega
  have htyB : m.hdr.messageType % 256 = m.hdr.messageType := by omega
  have hc0 : generateC0Header m = m.hdr.betterCid :: 0 :: 0 :: 0 ::
      (m.hdr.payloadLength / 65536 % 256) :: (m.hdr.payloadLength / 256 % 256)
      :: (m.hdr.payloadLength % 256) :: m.hdr.messageType ::
      (m.hdr.streamID % 256) :: (m.hdr.streamID / 256 % 256) ::
      (m.hdr.streamID / 65536 % 256) :: (m.hdr.streamID / 16777216 % 256)
      :: [] := by
    simp [generateC0Header, hts, hcidb, htyB]
  have hc3 : generateC3Header m = [192 + m.hdr.betterCid % 64] := by
    simp [generateC3Header, hts]
  have hd0 : u24of 0 0 0 = 0 := by rw [u24of_eq]
  have hplv : u24of (m.hdr.payloadLength / 65536 % 256)
      (m.hdr.payloadLength / 256 % 256) (m.hdr.payloadLength % 256)
      = m.hdr.payloadLength := by rw [u24of_eq]; omega
  have hsidv : m.hdr.streamID % 256 + m.hdr.streamID / 256 % 256 * 256
      + m.hdr.streamID / 65536 % 256 * 65536
      + m.hdr.streamID / 16777216 % 256 * 16777216 = m.hdr.streamID := by
    omega
  rw [writeMessage, writeMessageLoop, if_neg hpne]
  simp only [if_true, hc0, hc3, List.cons_append, List.nil_append,
    List.append_assoc]
  rw [readMessage]
  rw [readBasicHeader_one _ _ hcid1 hcid2]
  simp only [mapGet]
  rw [readMessageHeader_fresh0 _ _ _ _ _ _ _ _ _ _ _ _ _ (by rw [hd0]; omega)]
  simp only [hd0, hplv, hsidv, readMessagePayload, mkCStream, mkHdr]
  rw [if_neg (by omega)]
  have hsz : min m.payload.length 128 ≤ m.payload.length :=
    Nat.min_le_left _ _
  have htk : (m.payload.take (min m.payload.length 128)).length
      = min m.payload.length 128 := by simp [List.length_take]
  rw [if_neg (by rw [List.length_append, htk]; omega)]
  simp only [List.length_nil, Nat.sub_zero, List.nil_append, hpl]
  rw [take_append_length _ _ _ htk, drop_append_length _ _ _ htk]
  have hmin : min m.payload.length 128 = m.payload.length := by omega
  simp only [hmin, List.take_length, hpl]
  rw [if_pos trivial]
  rw [List.drop_length, writeMessageLoop_nil, List.nil_append]
  simp only [onMessageArrivatedNil, onMessageArrivated]
  rw [if_neg htyn]
  exact ⟨_, rfl⟩

theorem readMessage_write_panic_aux (m : RMsg) (extra : List Nat) (fuel : Nat)
    (hts : m.hdr.timestamp = 0)
    (hpl : m.hdr.payloadLength = m.payload.length)
    (hL1 : 129 ≤ m.payload.length) (hL2 : m.payload.length < 65536)
    (hcid1 : 2 ≤ m.hdr.betterCid) (hcid2 : m.hdr.betterCid < 64)
    (hsid : m.hdr.streamID < 4294967296) (htyb : m.hdr.messageType < 256) :
    readMessage (fuel + 1) {} (writeMessage m 128 ++ extra) = .panicked := by
  have hpne : m.payload ≠ [] := by
    cases hp : m.payload with
    | nil => rw [hp] at hL1; simp at hL1
    | cons a l => simp
  have hcidb : m.hdr.betterCid % 256 % 64 = m.hdr.betterCid := by omega
  have htyB : m.hdr.messageType % 256 = m.hdr.messageType := by omega
  have hc0 : generateC0Header m = m.hdr.betterCid :: 0 :: 0 :: 0 ::
      (m.hdr.payloadLength / 65536 % 256) :: (m.hdr.payloadLength / 256 % 256)
      :: (m.hdr.payloadLength % 256) :: m.hdr.messageType ::
      (m.hdr.streamID % 256) :: (m.hdr.streamID / 256 % 256) ::
      (m.hdr.streamID / 65536 % 256) :: (m.hdr.streamID / 16777216 % 256)
      :: [] := by
    simp [generateC0Header, hts, hcidb, htyB]
  have hc3 : generateC3Header m = [192 + m.hdr.betterCid % 64] := by
    simp [generateC3Header, hts]
  have hd0 : u24of 0 0 0 = 0 := by rw [u24of_eq]
  have hplv : u24of (m.hdr.payloadLength / 65536 % 256)
      (m.hdr.payloadLength / 256 % 256) (m.hdr.payloadLength % 256)
      = m.hdr.payloadLength := by rw [u24of_eq]; omega
  have hsidv : m.hdr.streamID % 256 + m.hdr.streamID / 256 % 256 * 256
      + m.hdr.streamID / 65536 % 256 * 65536
      + m.hdr.streamID / 16777216 % 256 * 16777216 = m.hdr.streamID := by
    omega
  rw [writeMessage, writeMessageLoop, if_neg hpne]
  simp only [if_true, hc0, hc3, List.cons_append, List.nil_append,
    List.append_assoc]
  rw [readMessage]
  rw [readBasicHeader_one _ _ hcid1 hcid2]
  simp only [mapGet]
  rw [readMessageHeader_fresh0 _ _ _ _ _ _ _ _ _ _ _ _ _ (by rw [hd0]; omega)]
  simp only [hd0, hplv, hsidv, readMessagePayload, mkCStream, mkHdr]
  rw [if_neg (by omega)]
  have htk : (m.payload.take (min m.payload.length 128)).length
      = min m.payload.length 128 := by simp [List.length_take]
  rw [if_neg (by rw [List.length_append, htk]; omega)]
  simp only [List.length_nil, Nat.sub_zero, List.nil_append, hpl]
  have hmin : min m.payload.length 128 = 128 := by omega
  simp only [hmin]
  rw [if_neg (by simp only [List.length_take]; omega)]
  rfl

/-! ## Claim C2: chunk mux/demux round-trip -/

/-- C2 (amended): writing a message with `Protocol.writeMessage` and
reading the bytes back with a fresh `Protocol.ReadMessage` returns a
message with equal payload length, message type, stream id, chunk
stream id and payload, and timestamp 0 — but only when the payload fits
a single 128-byte chunk.  A payload of 129 to 2^16-1 bytes makes
`ReadMessage` panic instead: after the first chunk the assembly is
incomplete, `readMessagePayload` returns a nil message, and
`onMessageArrivated`'s `m.messageType` selector dereferences it.
Preconditions: timestamp 0 (a nonzero timestamp is not recovered), the
chunk stream id in 2..63 (the writer emits only the one-byte
basic-header form and truncates the cid to 6 bits), a byte-sized
message type outside the read-hook set 1, 4, 5 (whose decode failures
abort `ReadMessage`), and a payload length below 2^16 (the demuxer's
24-bit reads drop the high byte). -/
theorem c2_chunk_roundtrip (m : RMsg) (extra : List Nat)
    (hts : m.hdr.timestamp = 0)
    (hpl : m.hdr.payloadLength = m.payload.length)
    (hL1 : 1 ≤ m.payload.length) (hL2 : m.payload.length < 65536)
    (hcid1 : 2 ≤ m.hdr.betterCid) (hcid2 : m.hdr.betterCid < 64)
    (hsid : m.hdr.streamID < 4294967296) (htyb : m.hdr.messageType < 256)
    (htyn : ¬(m.hdr.messageType = 1 ∨ m.hdr.messageType = 4
      ∨ m.hdr.messageType = 5)) :
    (m.payload.length ≤ 128 →
      ∃ rm : RMsg, ∃ st' : PState,
        protocolReadMessage (writeMessage m 128 ++ extra) = .ok (rm, st', extra)
        ∧ rm.hdr.timestamp = m.hdr.timestamp % 2147483648
        ∧ rm.hdr.payloadLength = m.hdr.payloadLength
        ∧ rm.hdr.messageType = m.hdr.messageType
        ∧ rm.hdr.streamID = m.hdr.streamID
        ∧ rm.hdr.betterCid = m.hdr.betterCid
        ∧ rm.payload = m.payload)
    ∧ (129 ≤ m.payload.length →
      protocolReadMessage (writeMessage m 128 ++ extra) = .panicked) := by
  constructor
  · intro hsmall
    obtain ⟨st', hst⟩ := readMessage_write_aux m extra
      (writeMessage m 128 ++ extra).length hts hpl hL1 hsmall hcid1 hcid2
      hsid htyb htyn
    rw [protocolReadMessage]
    refine ⟨_, st', hst, ?_, rfl, rfl, rfl, rfl, rfl⟩
    simp [mkHdr, hts]
  · intro hbig
    rw [protocolReadMessage]
    exact readMessage_write_panic_aux m extra
      (writeMessage m 128 ++ extra).length hts hpl hbig hL2 hcid1 hcid2
      hsid htyb

set_option maxRecDepth 4000 in
/-- C2 witness: a two-byte type-9 message on cid 3 round-trips, and a
129-byte message panics the reader. -/
theorem c2_chunk_roundtrip_witness :
    ({ hdr := mkHdr 0 2 9 7 3, payload := [171, 172] } : RMsg).hdr.timestamp
      = 0
    ∧ (∃ rm : RMsg, ∃ st' : PState,
      protocolReadMessage
        (writeMessage { hdr := mkHdr 0 2 9 7 3, payload := [171, 172] } 128
          ++ [])
        = .ok (rm, st', [])
      ∧ rm.hdr.timestamp = 0 % 2147483648
      ∧ rm.hdr.payloadLength = 2 ∧ rm.hdr.messageType = 9
      ∧ rm.hdr.streamID = 7 ∧ rm.hdr.betterCid = 3
      ∧ rm.payload = [171, 172])
    ∧ protocolReadMessage
        (writeMessage { hdr := mkHdr 0 129 9 0 3, payload := List.replicate 129 171 } 128 ++ [])
      = .panicked :=
  ⟨by decide,
   (c2_chunk_roundtrip { hdr := mkHdr 0 2 9 7 3, payload := [171, 172] } []
      (by decide) (by decide) (by decide) (by decide) (by decide) (by decide)
      (by decide) (by decide) (by decide)).1 (by decide),
   (c2_chunk_roundtrip { hdr := mkHdr 0 129 9 0 3, payload := List.replicate 129 171 } []
      (by decide) (by decide) (by decide) (by decide) (by decide) (by decide)
      (by decide) (by decide) (by decide)).2 (by decide)⟩

/-- C2 counterexample: the claim fails as stated.  A type-9 message
with timestamp 100 and a one-byte payload is written and read back with
timestamp 0: the demuxer only derives a timestamp inside the (dead)
extended-timestamp branch, so the 3-byte timestamp field is parsed into
`timestampDelta` and never into the timestamp, which stays 0 instead of
`100 & 0x7FFFFFFF = 100`. -/
theorem c2_chunk_roundtrip_counterexample :
    protocolReadMessage (writeMessage
        { hdr := { mkHdr 0 1 9 0 3 with timestamp := 100 }, payload := [171] } 128)
      = .ok ({ hdr := mkHdr 100 1 9 0 3, payload := [171] },
          { inChunkSize := 128,
            chunks := [(3, { format := 0, cid := 0, header := mkHdr 100 1 9 0 3, message := none, count := 1, extendedTimestamp := false })],
            transactions := [] }, [])
    ∧ (0 : Nat) ≠ 100 % 2147483648 := by
  refine ⟨by decide, by decide⟩

/-! ## Claim C3: extended timestamp -/

/-- C3 counterexample: the claim fails as stated.  Encoding a message
with timestamp `0x01000000` puts `FF FF FF` — not `00 00 FF` — in the
3-byte timestamp field (the sentinel, followed by the real value in the
trailing 4-byte extended field), and decoding the produced bytes yields
timestamp 0 — not `0x01000000 & 0x7FFFFFFF` — because the broken
24-bit read sees `0xFFFF`, never detects the sentinel, and consumes the
extended field as payload. -/
theorem c3_extended_timestamp_counterexample :
    ((generateC0Header { hdr := { mkHdr 0 1 9 0 3 with timestamp := 16777216 }, payload := [171] }).drop 1).take 3
      = [255, 255, 255]
    ∧ ((generateC0Header { hdr := { mkHdr 0 1 9 0 3 with timestamp := 16777216 }, payload := [171] }).drop 1).take 3
      ≠ [0, 0, 255]
    ∧ protocolReadMessage (writeMessage { hdr := { mkHdr 0 1 9 0 3 with timestamp := 16777216 }, payload := [171] } 128)
      = .ok ({ hdr := mkHdr 65535 1 9 0 3, payload := [1] },
          { inChunkSize := 128,
            chunks := [(3, { format := 0, cid := 0, header := mkHdr 65535 1 9 0 3, message := none, count := 1, extendedTimestamp := false })],
            transactions := [] }, [0, 0, 0, 171])
    ∧ (0 : Nat) ≠ 16777216 % 2147483648 := by
  refine ⟨by decide, by decide, by decide, by decide⟩

/-- C3 (amended): encoding a message with timestamp `0x01000000` puts
the sentinel bytes `FF FF FF` in the 3-byte timestamp field of the
Type0 header and the full 32-bit value `01 00 00 00` in a trailing
4-byte extended field; decoding the produced bytes (for a single-chunk
message whose type is outside the read-hook set) yields timestamp 0 and
a payload misassembled from the extended-timestamp bytes, because the
demuxer's 24-bit read drops the high byte of the field and never
triggers the extended-timestamp path. -/
theorem c3_extended_timestamp (m : RMsg)
    (hts : m.hdr.timestamp = 16777216)
    (hpl : m.hdr.payloadLength = m.payload.length)
    (hL1 : 1 ≤ m.payload.length) (hL2 : m.payload.length ≤ 128)
    (hcid1 : 2 ≤ m.hdr.betterCid) (hcid2 : m.hdr.betterCid < 64)
    (hsid : m.hdr.streamID < 4294967296) (htyb : m.hdr.messageType < 256)
    (htyn : ¬(m.hdr.messageType = 1 ∨ m.hdr.messageType = 4
      ∨ m.hdr.messageType = 5)) :
    generateC0Header m = m.hdr.betterCid :: 255 :: 255 :: 255 ::
      (m.hdr.payloadLength / 65536 % 256) :: (m.hdr.payloadLength / 256 % 256)
      :: (m.hdr.payloadLength % 256) :: m.hdr.messageType ::
      (m.hdr.streamID % 256) :: (m.hdr.streamID / 256 % 256) ::
      (m.hdr.streamID / 65536 % 256) :: (m.hdr.streamID / 16777216 % 256)
      :: [1, 0, 0, 0]
    ∧ ∃ st' : PState, protocolReadMessage (writeMessage m 128)
      = .ok ({ hdr := mkHdr 65535 m.hdr.payloadLength m.hdr.messageType m.hdr.streamID m.hdr.betterCid, payload := ([1, 0, 0, 0] ++ m.payload).take m.payload.length }, st', ([1, 0, 0, 0] ++ m.payload).drop m.payload.length) := by
  have hpne : m.payload ≠ [] := by
    cases hp : m.payload with
    | nil => rw [hp] at hL1; simp at hL1
    | cons a l => simp
  have hcidb : m.hdr.betterCid % 256 % 64 = m.hdr.betterCid := by omega
  have htyB : m.hdr.messageType % 256 = m.hdr.messageType := by omega
  have hc0 : generateC0Header m = m.hdr.betterCid :: 255 :: 255 :: 255 ::
      (m.hdr.payloadLength / 65536 % 256) :: (m.hdr.payloadLength / 256 % 256)
      :: (m.hdr.payloadLength % 256) :: m.hdr.messageType ::
      (m.hdr.streamID % 256) :: (m.hdr.streamID / 256 % 256) ::
      (m.hdr.streamID / 65536 % 256) :: (m.hdr.streamID / 16777216 % 256)
      :: [1, 0, 0, 0] := by
    simp [generateC0Header, hts, hcidb, htyB]
  refine ⟨hc0, ?_⟩
  have hdv : u24of 255 255 255 = 65535 := by rw [u24of_eq]
  have hplv : u24of (m.hdr.payloadLength / 65536 % 256)
      (m.hdr.payloadLength / 256 % 256) (m.hdr.payloadLength % 256)
      = m.hdr.payloadLength := by rw [u24of_eq]; omega
  have hsidv : m.hdr.streamID % 256 + m.hdr.streamID / 256 % 256 * 256
      + m.hdr.streamID / 65536 % 256 * 65536
      + m.hdr.streamID / 16777216 % 256 * 16777216 = m.hdr.streamID := by
    omega
  have hmin : min m.payload.length 128 = m.payload.length := by omega
  rw [protocolReadMessage, writeMessage, writeMessageLoop, if_neg hpne]
  simp only [if_true, hc0, hmin, List.take_length, List.drop_length,
    writeMessageLoop_nil, List.append_nil, List.cons_append,
    List.nil_append, List.append_assoc]
  rw [readMessage]
  rw [readBasicHeader_one _ _ hcid1 hcid2]
  simp only [mapGet]
  rw [readMessageHeader_fresh0 _ _ _ _ _ _ _ _ _ _ _ _ _
    (by rw [hdv]; omega)]
  simp only [hdv, hplv, hsidv, readMessagePayload, mkCStream, mkHdr,
    List.length_nil, Nat.sub_zero]
  rw [if_neg (by omega)]
  have hlen4 : min m.hdr.payloadLength 128 = m.payload.length := by omega
  simp only [hlen4]
  rw [if_neg (by simp only [List.length_append, List.length_cons]; omega)]
  simp only [List.nil_append]
  rw [if_pos (by simp only [List.length_take, List.length_append,
    List.length_cons]; omega)]
  simp only [onMessageArrivatedNil, onMessageArrivated]
  rw [if_neg htyn]
  exact ⟨_, rfl⟩

/-! ## Claim C10: empty payload writes nothing -/

/-- C10: a message with an empty payload makes `Protocol.writeMessage`
emit no bytes at all (the chunk loop never runs, not even a Type0
header is written), while the demux side treats a declared payload
length of 0 as an immediately complete empty message, consuming no
input. -/
theorem c10_empty_payload_writes_nothing (m : RMsg) (cs : Nat)
    (h : m.payload = []) :
    writeMessage m cs = []
    ∧ (∀ (chunk : CStream) (msg : RMsg) (csz : Nat) (input : List Nat),
      chunk.message = some msg → msg.hdr.payloadLength = 0 →
      readMessagePayload chunk csz input
        = .ok ({ chunk with message := none }, some msg, input)) := by
  constructor
  · rw [writeMessage, h]
    exact writeMessageLoop_nil _ _ _ _ _
  · intro chunk msg csz input hm hpl
    simp [readMessagePayload, hm, hpl]

/-- C10 witness: a concrete empty-payload video message writes nothing,
and a chunk stream with a zero-length message under assembly completes
it without consuming input. -/
theorem c10_empty_payload_witness :
    ({ hdr := mkHdr 0 0 9 0 3, payload := [] } : RMsg).payload = []
    ∧ (writeMessage { hdr := mkHdr 0 0 9 0 3, payload := [] } 128 = []
      ∧ ∀ (chunk : CStream) (msg : RMsg) (csz : Nat) (input : List Nat),
        chunk.message = some msg → msg.hdr.payloadLength = 0 →
        readMessagePayload chunk csz input
          = .ok ({ chunk with message := none }, some msg, input)) :=
  ⟨by decide, (c10_empty_payload_writes_nothing _ 128 (by decide)).1,
    (c10_empty_payload_writes_nothing { hdr := mkHdr 0 0 9 0 3, payload := [] } 128 (by decide)).2⟩

/-! ## Claim C4: chunk-stream format rules -/

/-- C4: the first two format rules hold, but the tolerated combination
does not: `newChunkStream` never assigns the `cid` field of the chunk
stream (only `header.betterCid` is set by `ReadMessage`), so the
`chunk.cid == 2` comparison in the quirk check reads 0 and the librtmp
sequence from the code's own comment — `0x42` starting a fresh cid-2
stream with fmt 1 — is rejected with the fresh-chunk protocol error
instead of being accepted. -/
theorem c4_format_rules :
    (∀ (chunk : CStream) (fmt : Nat) (input : List Nat),
      chunk.count = 0 → fmt ≠ 0 → ¬(chunk.cid = 2 ∧ fmt = 1) →
      readMessageHeader chunk fmt input = .err .freshChunkFmt)
    ∧ (∀ (chunk : CStream) (fmt : Nat) (input : List Nat),
      chunk.message.isSome = true → chunk.count ≠ 0 → fmt = 0 →
      readMessageHeader chunk fmt input = .err .fmt0OnPartial)
    ∧ protocolReadMessage [66, 0, 0, 0, 0, 0, 6, 4, 0, 6, 0, 0, 13, 15]
      = .err .freshChunkFmt := by
  refine ⟨?_, ?_, by decide⟩
  · intro chunk fmt input h0 h1 h2
    rw [readMessageHeader, if_pos ⟨h0, h1, h2⟩]
  · intro chunk fmt input hm hc h0
    rw [readMessageHeader]
    rw [if_neg (by simp [hc])]
    rw [if_pos ⟨hm, h0⟩]

/-- C4 witness: concrete instances of the two format rules. -/
theorem c4_format_rules_witness :
    (({} : CStream).count = 0
      ∧ readMessageHeader {} 3 [] = .err .freshChunkFmt)
    ∧ (({ message := some {} } : CStream).message.isSome = true
      ∧ readMessageHeader { message := some {}, count := 1 } 0 []
        = .err .fmt0OnPartial) :=
  ⟨⟨by decide, (c4_format_rules).1 {} 3 [] (by decide) (by decide)
      (by decide)⟩,
    ⟨by decide, (c4_format_rules).2.1 { message := some {}, count := 1 } 0 []
      (by decide) (by decide) (by decide)⟩⟩

/-! ## Claim C5: read-side effects -/

/-- C5 counterexample: the claim fails as stated.  A fully assembled
`UserControl` message does make `ReadMessage` fail: `onMessageArrivated`
calls `DecodeMessage`, whose type switch has no `UserControl` case, and
the resulting unknown-message-type error propagates out of
`ReadMessage`.  The bytes below are the librtmp 6-byte ping written as
a type-4 message on cid 2. -/
theorem c5_side_effects_counterexample :
    protocolReadMessage [2, 0, 0, 0, 0, 0, 6, 4, 0, 0, 0, 0, 0, 6, 0, 0, 0, 0]
      = .err .unknownMessageType := by decide

/-- C5 (amended): after a message is fully assembled,
`onMessageArrivated` decodes types 1, 4 and 5.  A `SetChunkSize` with a
payload of at least 4 bytes updates `input.chunk_size` to the big-endian
value; a `WindowAcknowledgementSize` with at least 4 bytes decodes
without changing the state; but decode errors propagate and fail
`ReadMessage`: every `UserControl` message errors (no decode case
exists for type 4), as does any type-1 or type-5 payload shorter than
4 bytes. -/
theorem c5_read_side_effects (m : RMsg) (st : PState) :
    (m.hdr.messageType = 1 → 4 ≤ m.payload.length →
      onMessageArrivated m st
        = .ok { st with inChunkSize := beVal (m.payload.take 4) })
    ∧ (m.hdr.messageType = 4 → ∃ e, onMessageArrivated m st = .err e)
    ∧ (m.hdr.messageType = 5 → 4 ≤ m.payload.length →
      onMessageArrivated m st = .ok st)
    ∧ (m.hdr.messageType = 5 → m.payload.length < 4 →
      ∃ e, onMessageArrivated m st = .err e) := by
  refine ⟨?_, ?_, ?_, ?_⟩
  · intro ht hl
    have hne : m.payload ≠ [] := by
      cases hp : m.payload with
      | nil => rw [hp] at hl; simp at hl
      | cons a l => simp
    simp [onMessageArrivated, decodeMessage, setChunkSizeUnmarshal, ht, hne,
      Nat.not_lt.mpr hl]
  · intro ht
    by_cases hne : m.payload = []
    · exact ⟨.emptyPacket, by simp [onMessageArrivated, decodeMessage, ht, hne]⟩
    · exact ⟨.unknownMessageType, by simp [onMessageArrivated, decodeMessage, ht, hne]⟩
  · intro ht hl
    have hne : m.payload ≠ [] := by
      cases hp : m.payload with
      | nil => rw [hp] at hl; simp at hl
      | cons a l => simp
    simp [onMessageArrivated, decodeMessage, windowAckUnmarshal, ht, hne,
      Nat.not_lt.mpr hl]
  · intro ht hl
    by_cases hne : m.payload = []
    · exact ⟨.emptyPacket, by simp [onMessageArrivated, decodeMessage, ht, hne]⟩
    · exact ⟨.dataNotEnough, by simp [onMessageArrivated, decodeMessage,
        windowAckUnmarshal, ht, hne, hl]⟩

/-- C5 witness: a 4-byte `SetChunkSize` payload sets the chunk size to
4096, and a `UserControl` message errors. -/
theorem c5_read_side_effects_witness :
    (({ hdr := mkHdr 0 4 1 0 2, payload := [0, 0, 16, 0] } : RMsg).hdr.messageType = 1
      ∧ onMessageArrivated { hdr := mkHdr 0 4 1 0 2, payload := [0, 0, 16, 0] } {}
        = .ok { ({} : PState) with inChunkSize := beVal ([0, 0, 16, 0].take 4) })
    ∧ (∃ e, onMessageArrivated { hdr := mkHdr 0 6 4 0 2, payload := [0, 6, 0, 0, 0, 0] } {} = .err e) :=
  ⟨⟨by decide, (c5_read_side_effects { hdr := mkHdr 0 4 1 0 2, payload := [0, 0, 16, 0] } {}).1 (by decide) (by decide)⟩,
    (c5_read_side_effects { hdr := mkHdr 0 6 4 0 2, payload := [0, 6, 0, 0, 0, 0] } {}).2.1 (by decide)⟩

/-! ## Claim C6: transaction correlation -/

theorem amf0StringUnmarshal_marshal (s rest : List Nat)
    (h : s.length < 65536) :
    amf0StringUnmarshal (marshalV (.astr s) ++ rest) = .ok s := by
  simp only [marshalV, List.cons_append, amf0StringUnmarshal]
  rw [if_neg (by simp)]
  exact utf8Unmarshal_marshal s rest h

theorem marshal_astr_drop (s Z : List Nat) :
    (marshalV (.astr s) ++ Z).drop (1 + utf8Size s) = Z := by
  apply drop_append_length
  rw [marshalV_length]
  rfl

theorem amf0NumberUnmarshal_marshal (t : Nat) (Z : List Nat)
    (ht : t < 18446744073709551616) :
    amf0NumberUnmarshal (marshalV (.anum t) ++ Z) = .ok t := by
  simp only [marshalV, List.cons_append, amf0NumberUnmarshal]
  rw [if_neg (by simp [beBytes_length])]
  rw [if_neg (by simp)]
  rw [take_append_length _ _ 8 (beBytes_length 8 t), beVal_beBytes]
  norm_num
  omega

theorem marshal_anum_drop (t : Nat) (Z : List Nat) :
    (marshalV (.anum t) ++ Z).drop 9 = Z := by
  apply drop_append_length
  rw [marshalV_length]
  rfl

theorem objectUnmarshal_marshal (ps : AProps) (rest : List Nat)
    (hw : wfV (.aobj ps) = true) :
    objectUnmarshal .nil (marshalV (.aobj ps) ++ rest) = .ok ps := by
  simp only [wfV, Bool.and_eq_true] at hw
  have hg : fuelP ps ≤ (marshalV (.aobj ps) ++ rest).length := by
    have h1 := fuelP_le_size ps
    have h2 := marshalV_length (.aobj ps)
    simp only [sizeV] at h2
    rw [List.length_append, h2]
    omega
  rw [objectUnmarshal]
  obtain ⟨g, hgf⟩ : ∃ g, (marshalV (.aobj ps) ++ rest).length + 1 = g + 1 :=
    ⟨_, rfl⟩
  rw [hgf]
  have hform : marshalV (.aobj ps) ++ rest
      = 3 :: (marshalP ps ++ (0 :: 0 :: 9 :: rest)) := by
    simp [marshalV, List.cons_append, List.append_assoc]
  rw [hform, objectUnmarshalF]
  rw [if_neg (by simp)]
  have := (amf0RoundtripAux (hP ps)).2.1 ps .nil le_rfl hw.1 hw.2
    (keysFresh_nil_acc ps) g rest (by omega)
  rw [this]
  rfl

theorem objectCallUnmarshal_marshal (nm : List Nat) (t : Nat) (ps : AProps)
    (hn : nm.length < 65536) (ht : t < 18446744073709551616)
    (hw : wfV (.aobj ps) = true) :
    objectCallUnmarshal .nil
      (marshalV (.astr nm) ++ (marshalV (.anum t) ++ marshalV (.aobj ps)))
      = .ok ⟨nm, t, ps, none⟩ := by
  unfold objectCallUnmarshal
  rw [amf0StringUnmarshal_marshal nm _ hn]
  dsimp only
  rw [marshal_astr_drop]
  rw [amf0NumberUnmarshal_marshal t _ ht]
  dsimp only
  rw [marshal_anum_drop]
  have hobj := objectUnmarshal_marshal ps [] hw
  rw [List.append_nil] at hobj
  rw [hobj]
  dsimp only
  have hdrop : (marshalV (.aobj ps)).drop (sizeV (.aobj ps)) = [] := by
    rw [← marshalV_length]
    exact List.drop_length _
  rw [hdrop]
  rfl

/-- C6 counterexample: the claim fails as stated for `_error`.  With
the table holding `1.0 -> connect`, decoding the command payload
`_error, 1.0, \x7b\x7d` removes the entry but does not produce a
`ConnectAppResPacket`: `ConnectAppResPacket.UnmarshalBinary` rejects
any command name other than `_result`, so the result is the
invalid-command-name error. -/
theorem c6_transaction_correlation_counterexample :
    parseAMFObject
      [2, 0, 6, 95, 101, 114, 114, 111, 114, 0, 63, 240, 0, 0, 0, 0, 0, 0, 3, 0, 0, 9]
      [(4607182418800017408, [99, 111, 110, 110, 101, 99, 116])]
      = (.err .invalidCommandName, []) := by decide

/-- C6 (amended): writing a `Connect` packet inserts
`(transaction id -> command name)` into the transaction table;
subsequently decoding a command payload named `_result` with that
transaction id produces the `ConnectAppResPacket` and removes the entry,
and a transaction id not in the table is reported as
`No matched request`; decoding an `_error` response, however, also
removes the entry but fails with an invalid-command-name error, because
the response decoder accepts only the literal `_result`. -/
theorem c6_transaction_correlation (c : CallPkt) (sid : Nat) (st : PState)
    (cs t : Nat) (ps : AProps) (trans : List (Nat × List Nat))
    (ht : t < 18446744073709551616) (hw : wfV (.aobj ps) = true)
    (hfound : mapGet trans t = some commandConnectB) :
    (writePacket (.connectApp c) sid st cs).2
      = { st with transactions := mapSet st.transactions c.tid c.name }
    ∧ parseAMFObject
        (marshalV (.astr commandResultB) ++ (marshalV (.anum t) ++ marshalV (.aobj ps))) trans
      = (.ok (.connectAppRes ⟨commandResultB, t, ps, none⟩), mapDel trans t)
    ∧ (∀ tr2 : List (Nat × List Nat), mapGet tr2 t = none →
      parseAMFObject
        (marshalV (.astr commandResultB) ++ (marshalV (.anum t) ++ marshalV (.aobj ps))) tr2
        = (.err .noMatchedRequest, tr2))
    ∧ parseAMFObject
        (marshalV (.astr commandErrorB) ++ (marshalV (.anum t) ++ marshalV (.aobj ps))) trans
      = (.err .invalidCommandName, mapDel trans t) := by
  refine ⟨rfl, ?_, ?_, ?_⟩
  · unfold parseAMFObject
    rw [amf0StringUnmarshal_marshal commandResultB _ (by decide)]
    dsimp only
    rw [if_pos (Or.inl rfl)]
    rw [marshal_astr_drop]
    rw [amf0NumberUnmarshal_marshal t _ ht]
    dsimp only
    rw [hfound]
    dsimp only
    rw [if_pos rfl]
    unfold connectAppResUnmarshal
    rw [objectCallUnmarshal_marshal commandResultB t ps (by decide) ht hw]
    dsimp only
    rw [if_neg (by simp)]
  · intro tr2 hnone
    unfold parseAMFObject
    rw [amf0StringUnmarshal_marshal commandResultB _ (by decide)]
    dsimp only
    rw [if_pos (Or.inl rfl)]
    rw [marshal_astr_drop]
    rw [amf0NumberUnmarshal_marshal t _ ht]
    dsimp only
    rw [hnone]
  · unfold parseAMFObject
    rw [amf0StringUnmarshal_marshal commandErrorB _ (by decide)]
    dsimp only
    rw [if_pos (Or.inr rfl)]
    rw [marshal_astr_drop]
    rw [amf0NumberUnmarshal_marshal t _ ht]
    dsimp only
    rw [hfound]
    dsimp only
    rw [if_pos rfl]
    unfold connectAppResUnmarshal
    rw [objectCallUnmarshal_marshal commandErrorB t ps (by decide) ht hw]
    dsimp only
    rw [if_pos (by decide)]

/-- C6 witness: connect with transaction id 1.0, then a `_result` with
the same id against the singleton table. -/
theorem c6_transaction_correlation_witness :
    numberOneBits < 18446744073709551616
    ∧ mapGet [(numberOneBits, commandConnectB)] numberOneBits
      = some commandConnectB
    ∧ ((writePacket (.connectApp ⟨commandConnectB, numberOneBits, .nil, none⟩) 0 {} 128).2
        = { ({} : PState) with transactions := mapSet ([] : List (Nat × List Nat)) numberOneBits commandConnectB }
      ∧ parseAMFObject
          (marshalV (.astr commandResultB) ++ (marshalV (.anum numberOneBits) ++ marshalV (.aobj .nil)))
          [(numberOneBits, commandConnectB)]
        = (.ok (.connectAppRes ⟨commandResultB, numberOneBits, .nil, none⟩),
            mapDel [(numberOneBits, commandConnectB)] numberOneBits)) :=
  ⟨by decide, by decide,
    ((c6_transaction_correlation ⟨commandConnectB, numberOneBits, .nil, none⟩ 0 {} 128 numberOneBits .nil
      [(numberOneBits, commandConnectB)] (by decide) (by decide)
      (by decide)).1),
    ((c6_transaction_correlation ⟨commandConnectB, numberOneBits, .nil, none⟩ 0 {} 128 numberOneBits .nil
      [(numberOneBits, commandConnectB)] (by decide) (by decide)
      (by decide)).2.1)⟩

/-! ## FLV tag muxer and demuxer (`flv/flv.go`)

The muxer writes `io.Writer` bytes; the demuxer reads from an
`io.Reader`.  The stream is a `List Nat` of bytes: the muxer produces a
byte list, the demuxer consumes a prefix and returns the remainder.  A
short `io.CopyN` read is the `shortRead` error. -/

inductive FErr where
  | shortRead
deriving DecidableEq, Repr

/-- An FLV tag as handed to `muxer.WriteTag`: a `TagType` (uint8), a
uint32 timestamp and the tag body. -/
structure FlvTag where
  tagType : Nat
  timestamp : Nat
  tag : List Nat
deriving DecidableEq, Repr

/-- `muxer.WriteTag`: the 11-byte tag header (type byte, 24-bit size,
24-bit timestamp low part, timestamp high byte, 3-byte stream id 0),
the body, then the 4-byte big-endian PreviousTagSize `11 + len(tag)`. -/
def writeTag (tagType timestamp : Nat) (tag : List Nat) : List Nat :=
  let ty := tagType % 256
  let ts := timestamp % 4294967296
  let tagSize := tag.length % 4294967296
  let pts := (11 + tag.length) % 4294967296
  [ty,
   tagSize / 65536 % 256, tagSize / 256 % 256, tagSize % 256,
   ts / 65536 % 256, ts / 256 % 256, ts % 256,
   ts / 16777216 % 256,
   0, 0, 0]
  ++ tag
  ++ [pts / 16777216 % 256, pts / 65536 % 256, pts / 256 % 256, pts % 256]

/-- `demuxer.ReadTagHeader`: consume 11 bytes; the result is
`(tagType, tagSize, timestamp)` with `tagSize = p1<<16|p2<<8|p3` and
`timestamp = p7<<24|p4<<16|p5<<8|p6` (`|` over disjoint byte fields
written as `+`); bytes 8..10 are ignored. -/
def readTagHeader (s : List Nat) :
    GoRes FErr ((Nat × Nat × Nat) × List Nat) :=
  match s with
  | p0 :: p1 :: p2 :: p3 :: p4 :: p5 :: p6 :: p7 :: _ :: _ :: _ :: rest =>
      .ok ((p0, p1 * 65536 + p2 * 256 + p3,
            p7 * 16777216 + p4 * 65536 + p5 * 256 + p6), rest)
  | _ => .err .shortRead

/-- `demuxer.ReadTag`: consume `tagSize + 4` bytes and return
`p[0 : len(p)-4]`, dropping the trailing PreviousTagSize. -/
def readTag (tagSize : Nat) (s : List Nat) :
    GoRes FErr (List Nat × List Nat) :=
  if s.length < tagSize + 4 then .err .shortRead
  else
    let p := s.take (tagSize + 4)
    .ok (p.take (p.length - 4), s.drop (tagSize + 4))

/-- Demux `n` tags: `ReadTagHeader` then `ReadTag tagSize`, repeated. -/
def demuxTags : Nat → List Nat → GoRes FErr (List FlvTag × List Nat)
  | 0, s => .ok ([], s)
  | n + 1, s =>
    match readTagHeader s with
    | .err e => .err e
    | .panicked => .panicked
    | .ok ((ty, sz, ts), s1) =>
      match readTag sz s1 with
      | .err e => .err e
      | .panicked => .panicked
      | .ok (body, s2) =>
        match demuxTags n s2 with
        | .err e => .err e
        | .panicked => .panicked
        | .ok (rest, s3) => .ok (⟨ty, ts, body⟩ :: rest, s3)

/-- Mux a sequence of tags with `muxer.WriteTag`. -/
def muxTags (tags : List FlvTag) : List Nat :=
  tags.foldr (fun t acc => writeTag t.tagType t.timestamp t.tag ++ acc) []

/-- Demuxing one tag whose body is 2^24 zero bytes: the DataSize field
wraps to zero, so only an empty body comes back. -/
theorem c9ce_aux (N : Nat) (hN : N = 16777216) :
    demuxTags 1 (muxTags [⟨9, 0, List.replicate N 0⟩])
      = .ok ([⟨9, 0, []⟩], List.replicate (N - 4) 0 ++ [1, 0, 0, 11]) := by
  have e2 : N % 4294967296 / 65536 % 256 = 0 := by omega
  have e3 : N % 4294967296 / 256 % 256 = 0 := by omega
  have e4 : N % 4294967296 % 256 = 0 := by omega
  have p1 : (11 + N) % 4294967296 / 16777216 % 256 = 1 := by omega
  have p2 : (11 + N) % 4294967296 / 65536 % 256 = 0 := by omega
  have p3 : (11 + N) % 4294967296 / 256 % 256 = 0 := by omega
  have p4 : (11 + N) % 4294967296 % 256 = 11 := by omega
  have h1 : muxTags [⟨9, 0, List.replicate N 0⟩]
      = writeTag 9 0 (List.replicate N 0) ++ [] := rfl
  rw [h1, List.append_nil]
  have hw0 : writeTag 9 0 (List.replicate N (0 : Nat))
      = [9 % 256,
         (List.replicate N (0 : Nat)).length % 4294967296 / 65536 % 256,
         (List.replicate N (0 : Nat)).length % 4294967296 / 256 % 256,
         (List.replicate N (0 : Nat)).length % 4294967296 % 256,
         0 % 4294967296 / 65536 % 256, 0 % 4294967296 / 256 % 256,
         0 % 4294967296 % 256, 0 % 4294967296 / 16777216 % 256,
         0, 0, 0]
        ++ List.replicate N 0
        ++ [(11 + (List.replicate N (0 : Nat)).length) % 4294967296 / 16777216 % 256,
            (11 + (List.replicate N (0 : Nat)).length) % 4294967296 / 65536 % 256,
            (11 + (List.replicate N (0 : Nat)).length) % 4294967296 / 256 % 256,
            (11 + (List.replicate N (0 : Nat)).length) % 4294967296 % 256] := rfl
  rw [List.length_replicate] at hw0
  rw [e2, e3, e4, p1, p2, p3, p4] at hw0
  rw [show (9 : Nat) % 256 = 9 from rfl] at hw0
  rw [show (0 : Nat) % 4294967296 / 65536 % 256 = 0 from rfl] at hw0
  rw [hw0]
  have hsh : ([9, 0, 0, 0, 0, 0, 0, 0, 0, 0, 0]
        ++ List.replicate N (0 : Nat)) ++ [1, 0, 0, 11]
      = 9 :: 0 :: 0 :: 0 :: 0 :: 0 :: 0 :: 0 :: 0 :: 0 :: 0 ::
        (List.replicate N 0 ++ [1, 0, 0, 11]) := by
    rw [List.append_assoc]
    rfl
  rw [hsh]
  have hh : readTagHeader (9 :: 0 :: 0 :: 0 :: 0 :: 0 :: 0 :: 0 :: 0 :: 0 :: 0 ::
        (List.replicate N (0 : Nat) ++ [1, 0, 0, 11]))
      = .ok ((9, 0, 0), List.replicate N 0 ++ [1, 0, 0, 11]) := rfl
  have hlen2 : (List.replicate N (0 : Nat) ++ [1, 0, 0, 11]).length = N + 4 := by
    rw [List.length_append, List.length_replicate]
    rfl
  have htake : (List.replicate N (0 : Nat) ++ [1, 0, 0, 11]).take (0 + 4)
      = List.replicate 4 0 := by
    rw [List.take_append_eq_append_take, List.take_replicate, List.length_replicate]
    rw [show (0 + 4 : Nat) ⊓ N = 4 by omega, show (0 + 4 - N : Nat) = 0 by omega]
    rw [List.take_zero, List.append_nil]
  have hdrop : (List.replicate N (0 : Nat) ++ [1, 0, 0, 11]).drop (0 + 4)
      = List.replicate (N - 4) 0 ++ [1, 0, 0, 11] := by
    rw [List.drop_append_eq_append_drop, List.drop_replicate, List.length_replicate]
    rw [show (0 + 4 - N : Nat) = 0 by omega, List.drop_zero]
  have hrt : readTag 0 (List.replicate N (0 : Nat) ++ [1, 0, 0, 11])
      = .ok ([], List.replicate (N - 4) 0 ++ [1, 0, 0, 11]) := by
    rw [readTag]
    rw [if_neg (by rw [hlen2]; omega)]
    rw [htake, hdrop]
    rfl
  simp only [demuxTags, hh, hrt]

/-- C9 counterexample: the claim fails as stated for a body whose
length does not fit the 24-bit DataSize field.  A single tag with a
body of 2^24 zero bytes muxes with DataSize bytes `00 00 00`, so the
demuxer reads back an empty body and misparses the remaining stream as
leftover. -/
theorem c9_flv_roundtrip_counterexample :
    demuxTags 1 (muxTags [⟨9, 0, List.replicate 16777216 0⟩])
      = .ok ([⟨9, 0, []⟩], List.replicate 16777212 0 ++ [1, 0, 0, 11])
    ∧ ([] : List Nat) ≠ List.replicate 16777216 0 := by
  constructor
  · have h := c9ce_aux 16777216 rfl
    rw [show (16777216 - 4 : Nat) = 16777212 from rfl] at h
    exact h
  · intro h
    have h2 := congrArg List.length h
    rw [List.length_nil, List.length_replicate] at h2
    exact absurd h2 (by omega)

/-- C9 (amended): for every sequence of tags, each with a tag type, a
32-bit timestamp and a body shorter than 2^24 bytes (the capacity of
the 24-bit DataSize field), muxing with `WriteTag` and demuxing with
`ReadTagHeader` followed by `ReadTag` yields the same tags — identical
types, identical 32-bit timestamps and identical bodies — with the
demuxer dropping each trailing 4-byte PreviousTagSize; trailing bytes
are left unconsumed. -/
theorem c9_flv_roundtrip (tags : List FlvTag) (extra : List Nat)
    (h : ∀ t ∈ tags, t.tagType < 256 ∧ t.timestamp < 4294967296
      ∧ t.tag.length < 16777216) :
    demuxTags tags.length (muxTags tags ++ extra) = .ok (tags, extra) := by
  induction tags with
  | nil => simp [muxTags, demuxTags]
  | cons t rest ih =>
      obtain ⟨hty, hts, hlen⟩ := h t (List.mem_cons_self _ _)
      have hrest := ih (fun x hx => h x (List.mem_cons_of_mem _ hx))
      have hmux : muxTags (t :: rest) ++ extra
          = writeTag t.tagType t.timestamp t.tag ++ (muxTags rest ++ extra) := by
        simp [muxTags, List.append_assoc]
      rw [List.length_cons, hmux]
      rw [show writeTag t.tagType t.timestamp t.tag
          = [t.tagType % 256,
             t.tag.length % 4294967296 / 65536 % 256,
             t.tag.length % 4294967296 / 256 % 256,
             t.tag.length % 4294967296 % 256,
             t.timestamp % 4294967296 / 65536 % 256,
             t.timestamp % 4294967296 / 256 % 256,
             t.timestamp % 4294967296 % 256,
             t.timestamp % 4294967296 / 16777216 % 256,
             0, 0, 0]
            ++ t.tag
            ++ [(11 + t.tag.length) % 4294967296 / 16777216 % 256,
                (11 + t.tag.length) % 4294967296 / 65536 % 256,
                (11 + t.tag.length) % 4294967296 / 256 % 256,
                (11 + t.tag.length) % 4294967296 % 256] from rfl]
      rw [Nat.mod_eq_of_lt hty, Nat.mod_eq_of_lt hts,
          Nat.mod_eq_of_lt (show t.tag.length < 4294967296 by omega),
          Nat.mod_eq_of_lt (show 11 + t.tag.length < 4294967296 by omega)]
      simp only [demuxTags, List.cons_append, List.nil_append,
        List.append_assoc, readTagHeader]
      have hsz : t.tag.length / 65536 % 256 * 65536
          + t.tag.length / 256 % 256 * 256 + t.tag.length % 256
          = t.tag.length := by omega
      have htsv : t.timestamp / 16777216 % 256 * 16777216
          + t.timestamp / 65536 % 256 * 65536
          + t.timestamp / 256 % 256 * 256 + t.timestamp % 256
          = t.timestamp := by omega
      rw [hsz, htsv]
      have hshape : t.tag ++ ((11 + t.tag.length) / 16777216 % 256 ::
            (11 + t.tag.length) / 65536 % 256 ::
            (11 + t.tag.length) / 256 % 256 ::
            (11 + t.tag.length) % 256 :: (muxTags rest ++ extra))
          = (t.tag ++ [(11 + t.tag.length) / 16777216 % 256,
              (11 + t.tag.length) / 65536 % 256,
              (11 + t.tag.length) / 256 % 256,
              (11 + t.tag.length) % 256]) ++ (muxTags rest ++ extra) := by
        rw [List.append_assoc]
        rfl
      rw [hshape]
      have hplen : (t.tag ++ [(11 + t.tag.length) / 16777216 % 256,
          (11 + t.tag.length) / 65536 % 256,
          (11 + t.tag.length) / 256 % 256,
          (11 + t.tag.length) % 256]).length = t.tag.length + 4 := by
        simp
      rw [readTag]
      rw [if_neg (by simp only [List.length_append, hplen]; omega)]
      rw [take_append_length _ _ _ hplen, drop_append_length _ _ _ hplen]
      dsimp only
      rw [hplen]
      simp only [Nat.add_sub_cancel]
      rw [take_append_length _ _ _ rfl]
      rw [hrest]

/-- C9 witness: two concrete tags round-trip, leaving the trailing
byte unconsumed. -/
theorem c9_flv_roundtrip_witness :
    (∀ t ∈ [(⟨8, 4096, [1, 2]⟩ : FlvTag), ⟨9, 4294967295, []⟩],
      t.tagType < 256 ∧ t.timestamp < 4294967296 ∧ t.tag.length < 16777216)
    ∧ demuxTags 2 (muxTags [⟨8, 4096, [1, 2]⟩, ⟨9, 4294967295, []⟩] ++ [7])
      = .ok ([⟨8, 4096, [1, 2]⟩, ⟨9, 4294967295, []⟩], [7]) :=
  ⟨by decide,
   c9_flv_roundtrip [⟨8, 4096, [1, 2]⟩, ⟨9, 4294967295, []⟩] [7] (by decide)⟩

/-- C3 witness: the extended-timestamp theorem applied to a concrete
one-byte message with timestamp 0x01000000. -/
theorem c3_extended_timestamp_witness :
    (1 : Nat) ≤ ([171] : List Nat).length
    ∧ (generateC0Header { hdr := { mkHdr 0 1 9 0 3 with timestamp := 16777216 }, payload := [171] }
        = [3, 255, 255, 255, 0, 0, 1, 9, 0, 0, 0, 0, 1, 0, 0, 0]
    ∧ ∃ st' : PState, protocolReadMessage (writeMessage { hdr := { mkHdr 0 1 9 0 3 with timestamp := 16777216 }, payload := [171] } 128)
        = .ok ({ hdr := mkHdr 65535 1 9 0 3, payload := [1] }, st', [0, 0, 0, 171])) := by
  refine ⟨by decide, ?_⟩
  obtain ⟨h1, st', h2⟩ := c3_extended_timestamp
    { hdr := { mkHdr 0 1 9 0 3 with timestamp := 16777216 }, payload := [171] }
    rfl rfl (by decide) (by decide) (by decide) (by decide) (by decide)
    (by decide) (by decide)
  refine ⟨?_, st', ?_⟩
  · rw [h1]
    rfl
  · rw [h2]
    rfl
